import Mathlib

/-!
Shallow embedding of `src/preprocess.py` (TLC-Trip-Record-Data-Scripts).

A pandas `DataFrame` is modelled as a list of named, typed columns
(`Table`), each column holding a list of cell values (`Value`).  Missing
data (`NaN` / `NaT` / `pd.NA`) is the single value `Value.null`; floating
point cells are modelled as exact rationals built with `mkRat` (so that the
kernel can evaluate them); `datetime64[ns]` cells are epoch nanoseconds.

`main()` reads one parquet file, prunes columns, derives datetime features,
filters rows with one combined mask, performs legacy datetime conversions,
converts identifier columns to categoricals, downcasts numeric columns and
writes the result.  Each of those steps is one definition below; `pipeline`
is their composition in source order.  The iteration order of the Python
`set` `needed` (line 40) is an explicit parameter `order`; the pandas
datetime parser behind `pd.to_datetime(..., errors="coerce")` is an
explicit parameter `parse` (returning `none` exactly on unparsable cells).
-/

namespace Preproc

/-- A cell of a pandas column: missing data (`NaN`/`NaT`/`pd.NA`), an
integer, a float (modelled as an exact rational), a string, or a
`datetime64[ns]` timestamp in epoch nanoseconds. -/
inductive Value where
  | null : Value
  | int : Int → Value
  | float : ℚ → Value
  | str : String → Value
  | ts : Int → Value
deriving DecidableEq

/-- The pandas/numpy dtypes that occur in the script: `object`,
`datetime64[ns]`, `category`, numpy floats (`float{w}`), numpy signed ints
(`int{w}`), and the nullable extension ints (`Int{w}` / `UInt{w}`). -/
inductive DType where
  | obj : DType
  | datetime : DType
  | category : DType
  | float : Nat → DType
  | sint : Nat → DType
  | nInt : Nat → DType
  | nUInt : Nat → DType
deriving DecidableEq

/-- One named column of a DataFrame. -/
structure Column where
  name : String
  dtype : DType
  values : List Value
deriving DecidableEq

/-- A DataFrame: an ordered list of columns. -/
structure Table where
  cols : List Column
deriving DecidableEq

/-- `df.columns`: the schema, in order. -/
def Table.names (t : Table) : List String :=
  t.cols.map Column.name

/-- `df[n]`: the first column named `n`, if present. -/
def Table.getCol (t : Table) (n : String) : Option Column :=
  t.cols.find? (fun c => c.name == n)

/-- The values of column `n` (empty list when the column is absent). -/
def Table.colValues (t : Table) (n : String) : List Value :=
  match t.getCol n with
  | some c => c.values
  | none => []

/-- `len(df)`: the number of rows (length of the first column). -/
def Table.nrows (t : Table) : Nat :=
  match t.cols with
  | [] => 0
  | c :: _ => c.values.length

/-- `df[c.name] = ...`: replace the column in place when a column of that
name exists, otherwise append it at the end (pandas column assignment). -/
def Table.setCol (t : Table) (c : Column) : Table :=
  if c.name ∈ t.names then
    ⟨t.cols.map (fun c0 => if c0.name = c.name then c else c0)⟩
  else
    ⟨t.cols ++ [c]⟩

/-- `TARGET = "total_amount"` (preprocess.py line 4). -/
def TARGET : String := "total_amount"

/-- `LEAKAGE_COLS` (preprocess.py lines 5-14). -/
def LEAKAGE_COLS : List String :=
  ["fare_amount", "extra", "mta_tax", "tip_amount", "tolls_amount",
   "improvement_surcharge", "congestion_surcharge", "airport_fee"]

/-- `DATETIME_COLS` (preprocess.py line 15). -/
def DATETIME_COLS : List String :=
  ["tpep_pickup_datetime", "tpep_dropoff_datetime"]

/-- The elements of the Python set `needed` (preprocess.py lines 40-52),
listed in source order.  Only membership in this list is meaningful: the
set's iteration order is the `order` parameter of the pipeline. -/
def neededList : List String :=
  [TARGET, "trip_distance", "store_and_fwd_flag", "payment_type",
   "vendor_id", "rate_code"] ++ DATETIME_COLS ++
  ["pickup_datetime", "dropoff_datetime"] ++ LEAKAGE_COLS

/-- The identifier columns converted with `astype("category")`
(preprocess.py line 135). -/
def CATEGORY_COLS : List String := ["payment_type", "vendor_id", "rate_code"]

/-! ### Calendar helpers for the `.dt` accessors

`datetime64[ns]` timestamps are naive nanoseconds since 1970-01-01T00:00;
`dt.hour`, `dt.dayofweek` (Monday = 0; 1970-01-01 was a Thursday = 3) and
`dt.month` are computed from them with floor division, the month via the
standard civil-from-days algorithm. -/

/-- Nanoseconds in one hour. -/
def nsPerHour : Int := 3600000000000

/-- Nanoseconds in one day. -/
def nsPerDay : Int := 86400000000000

/-- `dt.hour` of a timestamp in epoch nanoseconds. -/
def hourNs (n : Int) : Int := (Int.fdiv n nsPerHour).emod 24

/-- `dt.dayofweek` (Monday = 0) of a timestamp in epoch nanoseconds. -/
def dowNs (n : Int) : Int := (Int.fdiv n nsPerDay + 3).emod 7

/-- Month (1-12) of the civil date `z` days after 1970-01-01
(civil-from-days, Gregorian calendar). -/
def monthOfDays (z0 : Int) : Int :=
  let z := z0 + 719468
  let era := Int.fdiv z 146097
  let doe := z - era * 146097
  let yoe := Int.fdiv (doe - Int.fdiv doe 1460 + Int.fdiv doe 36524 -
    Int.fdiv doe 146096) 365
  let doy := doe - (365 * yoe + Int.fdiv yoe 4 - Int.fdiv yoe 100)
  let mp := Int.fdiv (5 * doy + 2) 153
  mp + (if mp < 10 then 3 else -9)

/-- `dt.month` of a timestamp in epoch nanoseconds. -/
def monthNs (n : Int) : Int := monthOfDays (Int.fdiv n nsPerDay)

/-- `s.dt.hour.astype("UInt8")` applied to one cell: the hour of a valid
timestamp, null for `NaT` (and for any non-timestamp model value). -/
def tsHour : Value → Value
  | .ts n => .int (hourNs n)
  | _ => .null

/-- `s.dt.dayofweek.astype("UInt8")` applied to one cell. -/
def tsDow : Value → Value
  | .ts n => .int (dowNs n)
  | _ => .null

/-- `s.dt.month.astype("UInt8")` applied to one cell. -/
def tsMonth : Value → Value
  | .ts n => .int (monthNs n)
  | _ => .null

/-- One cell of
`((dropoff - pickup).dt.total_seconds() / 60.0).astype("float32")`
(preprocess.py lines 85-86): the difference in minutes when both cells are
valid timestamps, otherwise null (`NaT` propagates to `NaN`). -/
def durVal : Value → Value → Value
  | .ts d, .ts p => .float (mkRat (d - p) 60000000000)
  | _, _ => .null

/-- `pd.to_datetime(cell, errors="coerce")`: valid timestamps and missing
data pass through, every other cell is handed to the parser `parse` and
becomes null when unparsable.  Coercion is total: it never raises. -/
def coerceVal (parse : Value → Option Int) : Value → Value
  | .ts n => .ts n
  | .null => .null
  | v => match parse v with
    | some n => .ts n
    | none => .null

/-- `df[c] = pd.to_datetime(df[c], errors="coerce")` on a whole column:
the result has dtype `datetime64[ns]`. -/
def coerceCol (parse : Value → Option Int) (c : Column) : Column :=
  { c with dtype := .datetime, values := c.values.map (coerceVal parse) }

/-- Lines 72-74: coerce each raw `tpep_*` datetime column that is present
and not already of datetime dtype. -/
def coerceDatetimes (parse : Value → Option Int) (t : Table) : Table :=
  ⟨t.cols.map (fun c =>
    if decide (c.name ∈ DATETIME_COLS) && !(c.dtype == .datetime) then
      coerceCol parse c
    else c)⟩

/-- Lines 78-82: when `tpep_pickup_datetime` is present, derive
`pickup_hour`, `pickup_dayofweek`, `pickup_month` as nullable `UInt8`. -/
def addPickupFeatures (t : Table) : Table :=
  match t.getCol "tpep_pickup_datetime" with
  | none => t
  | some c =>
    let t1 := t.setCol ⟨"pickup_hour", .nUInt 8, c.values.map tsHour⟩
    let t2 := t1.setCol ⟨"pickup_dayofweek", .nUInt 8, c.values.map tsDow⟩
    t2.setCol ⟨"pickup_month", .nUInt 8, c.values.map tsMonth⟩

/-- Lines 84-86: when both `tpep_*` columns are present, derive
`trip_duration_min` as `float32`. -/
def addDuration (t : Table) : Table :=
  match t.getCol "tpep_dropoff_datetime", t.getCol "tpep_pickup_datetime" with
  | some cd, some cp =>
    t.setCol ⟨"trip_duration_min", .float 32, List.zipWith durVal cd.values cp.values⟩
  | _, _ => t

/-- Lines 88-91: drop the raw `tpep_*` datetime columns. -/
def dropRawDatetimes (t : Table) : Table :=
  ⟨t.cols.filter (fun c => !(decide (c.name ∈ DATETIME_COLS)))⟩

/-- `map({"Y": 1, "N": 0})` on one cell: any cell that is not the string
"Y" or "N" is absent from the dict and becomes null. -/
def flagMap (v : Value) : Value :=
  if v = .str "Y" then .int 1 else if v = .str "N" then .int 0 else .null

/-- Lines 94-95: encode `store_and_fwd_flag` to nullable `UInt8`. -/
def encodeFlag (t : Table) : Table :=
  match t.getCol "store_and_fwd_flag" with
  | none => t
  | some c => t.setCol ⟨"store_and_fwd_flag", .nUInt 8, c.values.map flagMap⟩

/-- `s.notna()` on one cell. -/
def vNotna : Value → Bool
  | .null => false
  | _ => true

/-- `s >= 0` on one cell (numeric comparison; null compares false, as
`NaN >= 0` is `False` in pandas). -/
def vGe0 : Value → Bool
  | .int i => decide (0 ≤ i)
  | .float q => decide (0 ≤ q)
  | _ => false

/-- `s > 0` on one cell. -/
def vGt0 : Value → Bool
  | .int i => decide (0 < i)
  | .float q => decide (0 < q)
  | _ => false

/-- One `mask &= <predicate on df[n]>` step: when column `n` is present,
conjoin the pointwise predicate into the mask, otherwise leave the mask
unchanged (the source guards every step with `if n in df.columns`). -/
def maskCol (t : Table) (n : String) (p : Value → Bool) (m : List Bool) : List Bool :=
  match t.getCol n with
  | some c => List.zipWith (fun b v => b && p v) m c.values
  | none => m

/-- Lines 98-113: the single combined filter mask, starting from
`pd.Series(True, index=df.index)` and conjoining each guarded predicate in
source order. -/
def buildMask (t : Table) : List Bool :=
  let m0 := List.replicate t.nrows true
  let m1 := maskCol t TARGET vNotna m0
  let m2 := maskCol t TARGET vGe0 m1
  let m3 := maskCol t "trip_duration_min" vNotna m2
  let m4 := maskCol t "pickup_hour" vNotna m3
  let m5 := maskCol t "pickup_dayofweek" vNotna m4
  let m6 := maskCol t "trip_distance" vNotna m5
  let m7 := maskCol t "trip_distance" vGe0 m6
  maskCol t "trip_duration_min" vGt0 m7

/-- Keep the entries of `xs` whose mask bit is `true` (boolean indexing). -/
def maskFilter : List Bool → List α → List α
  | true :: bs, x :: xs => x :: maskFilter bs xs
  | false :: bs, _ :: xs => maskFilter bs xs
  | _, _ => []

/-- Line 115: `df = df.loc[mask].copy()` — apply the combined mask to every
column in one materializing pass. -/
def applyFilter (t : Table) : Table :=
  let m := buildMask t
  ⟨t.cols.map (fun c => { c with values := maskFilter m c.values })⟩

/-- `s.view("int64")` on one cell of a datetime column: a valid timestamp
is its nanosecond count, `NaT` is the int64 sentinel `-2^63`. -/
def viewInt64 : Value → Int
  | .ts n => n
  | _ => -9223372036854775808

/-- Lines 118-129 for one legacy column name `c`: coerce it when not
already datetime, then derive `c_epoch` (non-nullable `int64` floor-divided
epoch seconds), `c_hour` and `c_dow` (nullable `UInt8`). -/
def legacyOne (parse : Value → Option Int) (t : Table) (c : String) : Table :=
  match t.getCol c with
  | none => t
  | some col =>
    let col := if col.dtype ≠ .datetime then coerceCol parse col else col
    let t1 := t.setCol col
    let t2 := t1.setCol ⟨c ++ "_epoch", .sint 64,
      col.values.map (fun v => .int (Int.fdiv (viewInt64 v) 1000000000))⟩
    let t3 := t2.setCol ⟨c ++ "_hour", .nUInt 8, col.values.map tsHour⟩
    t3.setCol ⟨c ++ "_dow", .nUInt 8, col.values.map tsDow⟩

/-- Lines 118-129: the legacy conversions, `pickup_datetime` first. -/
def legacyConversions (parse : Value → Option Int) (t : Table) : Table :=
  legacyOne parse (legacyOne parse t "pickup_datetime") "dropoff_datetime"

/-- Lines 134-137: convert the identifier columns to categoricals (a dtype
change only; values are untouched). -/
def toCategoricals (t : Table) : Table :=
  ⟨t.cols.map (fun c =>
    if c.name ∈ CATEGORY_COLS then { c with dtype := .category } else c)⟩

/-! ### `_downcast_numeric` (lines 17-26) -/

/-- Largest odd divisor, computed structurally (fuel = the number itself). -/
def oddPartAux : Nat → Nat → Nat
  | 0, n => n
  | fuel + 1, n => if n % 2 == 0 && n != 0 then oddPartAux fuel (n / 2) else n

/-- Largest odd divisor of `n` (for `n = 0`, `0`). -/
def oddPart (n : Nat) : Nat := oddPartAux n n

/-- Whether the exact rational `q` is representable as an IEEE-754 binary32
value: zero, or a dyadic rational whose odd mantissa fits in 24 bits and
whose magnitude and scale are within the binary32 range.  This models the
value-preservation check pandas performs before downcasting a float
column. -/
def repFloat32 (q : ℚ) : Bool :=
  q.num == 0 ||
  (oddPart q.den == 1 && decide (oddPart q.num.natAbs < 2 ^ 24) &&
   decide (q.den ≤ 2 ^ 149) &&
   decide (q.num.natAbs ≤ q.den * ((2 ^ 24 - 1) * 2 ^ 104)))

/-- `pd.api.types.is_float_dtype`. -/
def isFloatDtype : DType → Bool
  | .float _ => true
  | _ => false

/-- `pd.api.types.is_integer_dtype` (true for numpy ints and the nullable
extension ints, false for floats, categoricals and datetimes). -/
def isIntegerDtype : DType → Bool
  | .sint _ => true
  | .nInt _ => true
  | .nUInt _ => true
  | _ => false

/-- The (min, max) of the integer cells of a column, starting from (0, 0);
0 lies in every signed width's range, so the seed never changes the chosen
width. -/
def intBounds (vs : List Value) : Int × Int :=
  vs.foldl
    (fun b v =>
      match v with
      | .int i => (if i < b.1 then i else b.1, if b.2 < i then i else b.2)
      | _ => b)
    (0, 0)

/-- The smallest signed width in {8, 16, 32, 64} holding `[lo, hi]`. -/
def minSignedWidth (lo hi : Int) : Nat :=
  if -128 ≤ lo ∧ hi < 128 then 8
  else if -32768 ≤ lo ∧ hi < 32768 then 16
  else if -2147483648 ≤ lo ∧ hi < 2147483648 then 32
  else 64

/-- Whether every float cell of the column is exactly representable at
binary32 (nulls pass, as pandas compares with `equal_nan`). -/
def allRep32 (vs : List Value) : Bool :=
  vs.all (fun v => match v with | .float q => repFloat32 q | _ => true)

/-- `pd.to_numeric(s, downcast=...)` on one column (lines 19-25): a
`float64` column becomes `float32` when every cell is exactly
representable (`is_float_dtype` branch — `float32` is already the smallest
float pandas tries); an integer column (`is_integer_dtype` branch: numpy
ints and the nullable extension ints) is narrowed to the smallest signed
width holding its value range, but only to a dtype no wider than the
current one (pandas only ever downcasts).  Values are never changed. -/
def downcastCol (c : Column) : Column :=
  match c.dtype with
  | .float w0 =>
    if w0 = 64 ∧ allRep32 c.values = true then { c with dtype := .float 32 } else c
  | .sint w0 =>
    if minSignedWidth (intBounds c.values).1 (intBounds c.values).2 < w0 then
      { c with dtype := .sint (minSignedWidth (intBounds c.values).1 (intBounds c.values).2) }
    else c
  | .nInt w0 =>
    if minSignedWidth (intBounds c.values).1 (intBounds c.values).2 < w0 then
      { c with dtype := .nInt (minSignedWidth (intBounds c.values).1 (intBounds c.values).2) }
    else c
  | .nUInt w0 =>
    if minSignedWidth (intBounds c.values).1 (intBounds c.values).2 ≤ w0 then
      { c with dtype := .nInt (minSignedWidth (intBounds c.values).1 (intBounds c.values).2) }
    else c
  | _ => c

/-- `_downcast_numeric` (preprocess.py lines 17-26). -/
def downcast_numeric (t : Table) : Table :=
  ⟨t.cols.map downcastCol⟩

/-! ### The pipeline (`main`, lines 28-155) -/

/-- Line 36: `pd.read_parquet(in_path, columns=None)` — a full read of the
input file, materializing every column (the comment in the source concedes
that a metadata-only load is not guaranteed). -/
def probeRead (input : Table) : Table := input

/-- Lines 56-66: the list of columns to load — the needed columns present
in the file (line 60, iterated in the set order `order`), minus the
leakage columns (line 66). -/
def selectColumns (order : List String) (fileCols : List String) : List String :=
  (order.filter (fun c => decide (c ∈ fileCols))).filter
    (fun c => !(decide (c ∈ LEAKAGE_COLS)))

/-- Line 68: `pd.read_parquet(in_path, columns=columns)` — load exactly the
requested columns, in the requested order. -/
def load (columns : List String) (input : Table) : Table :=
  ⟨columns.filterMap (fun n => input.getCol n)⟩

/-- The table right after loading and datetime coercion (lines 68-74). -/
def loadedTable (parse : Value → Option Int) (order : List String)
    (input : Table) : Table :=
  coerceDatetimes parse (load (selectColumns order input.names) input)

/-- The table right before the filter is applied (lines 68-95). -/
def preFilterTable (parse : Value → Option Int) (order : List String)
    (input : Table) : Table :=
  encodeFlag (dropRawDatetimes (addDuration (addPickupFeatures
    (loadedTable parse order input))))

/-- The whole preprocessing pipeline (lines 28-153): the table handed to
`to_parquet`. -/
def pipeline (parse : Value → Option Int) (order : List String)
    (input : Table) : Table :=
  downcast_numeric (toCategoricals (legacyConversions parse
    (applyFilter (preFilterTable parse order input))))

/-- Every whole-table value the run materializes: the full probe read
(line 36), the pruned load (line 68, mutated in place through line 113),
the filtered copy (line 115, mutated in place through line 140), and the
table written out (line 147). -/
def materializedTables (parse : Value → Option Int) (order : List String)
    (input : Table) : List Table :=
  [probeRead input,
   load (selectColumns order input.names) input,
   applyFilter (preFilterTable parse order input),
   pipeline parse order input]

/-- All rows of a table have length `n` (the model's well-formedness). -/
abbrev AllLen (t : Table) (n : Nat) : Prop :=
  ∀ c ∈ t.cols, c.values.length = n

/-- `order` is an enumeration of the Python set `needed`: the needed
column names, each exactly once, in some (hash-dependent) order. -/
def IsNeededOrder (order : List String) : Prop :=
  order.Nodup ∧ ∀ x, x ∈ order ↔ x ∈ neededList

/-! ## Structural lemmas about the table model -/

theorem getCol_mem {t : Table} {n : String} {c : Column}
    (h : t.getCol n = some c) : c ∈ t.cols ∧ c.name = n := by
  refine ⟨List.mem_of_find?_eq_some h, ?_⟩
  have := List.find?_some h
  simpa using this

theorem getCol_eq_none {t : Table} {n : String} :
    t.getCol n = none ↔ n ∉ t.names := by
  rw [Table.getCol, List.find?_eq_none, Table.names]
  constructor
  · intro h hn
    obtain ⟨c, hc, hcn⟩ := List.mem_map.mp hn
    exact absurd (by simpa using hcn) (by simpa using h c hc)
  · intro h c hc
    simp only [beq_iff_eq]
    intro hcn
    exact h (List.mem_map.mpr ⟨c, hc, hcn⟩)

theorem getCol_isSome {t : Table} {n : String} :
    (t.getCol n).isSome ↔ n ∈ t.names := by
  rcases h : t.getCol n with _ | c
  · simpa using getCol_eq_none.mp h
  · simp only [Option.isSome_some, true_iff]
    obtain ⟨hc, hcn⟩ := getCol_mem h
    exact hcn ▸ List.mem_map.mpr ⟨c, hc, rfl⟩

/-- `getCol` on a name-preserving per-column map. -/
theorem getCol_map {f : Column → Column} (hf : ∀ c, (f c).name = c.name)
    (t : Table) (n : String) :
    Table.getCol ⟨t.cols.map f⟩ n = (t.getCol n).map f := by
  rcases t with ⟨cols⟩
  induction cols with
  | nil => rfl
  | cons c0 cs ih =>
    simp only [Table.getCol, List.map_cons, List.find?_cons] at *
    rcases hb : ((f c0).name == n) with _ | _
    · have hb0 : (c0.name == n) = false := by
        rw [hf c0] at hb; exact hb
      rw [hb0]
      exact ih
    · have hb0 : (c0.name == n) = true := by
        rw [hf c0] at hb; exact hb
      rw [hb0]
      rfl

/-- `colValues` on a name- and value-preserving per-column map. -/
theorem colValues_map {f : Column → Column} (hf : ∀ c, (f c).name = c.name)
    (hv : ∀ c, (f c).values = c.values) (t : Table) (n : String) :
    Table.colValues ⟨t.cols.map f⟩ n = t.colValues n := by
  simp only [Table.colValues, getCol_map hf]
  rcases t.getCol n with _ | c
  · rfl
  · exact hv c

theorem downcastCol_name (c : Column) : (downcastCol c).name = c.name := by
  rcases c with ⟨n, d, vs⟩
  rcases d with _ | _ | _ | w | w | w | w <;>
    simp only [downcastCol] <;> split <;> rfl

theorem downcastCol_values (c : Column) : (downcastCol c).values = c.values := by
  rcases c with ⟨n, d, vs⟩
  rcases d with _ | _ | _ | w | w | w | w <;>
    simp only [downcastCol] <;> split <;> rfl

theorem downcastCol_idem (c : Column) : downcastCol (downcastCol c) = downcastCol c := by
  rcases c with ⟨n, d, vs⟩
  rcases d with _ | _ | _ | w | w | w | w
  case obj | datetime | category => rfl
  case float =>
    by_cases h : w = 64 ∧ allRep32 vs = true
    · have h1 : downcastCol ⟨n, .float w, vs⟩ = ⟨n, .float 32, vs⟩ := by
        simp only [downcastCol]; rw [if_pos h]
      rw [h1]
      simp only [downcastCol]
      rw [if_neg (by simp)]
    · have h1 : downcastCol ⟨n, .float w, vs⟩ = ⟨n, .float w, vs⟩ := by
        simp only [downcastCol]; rw [if_neg h]
      rw [h1]; exact h1
  case sint =>
    by_cases h : minSignedWidth (intBounds vs).1 (intBounds vs).2 < w
    · have h1 : downcastCol ⟨n, .sint w, vs⟩ =
          ⟨n, .sint (minSignedWidth (intBounds vs).1 (intBounds vs).2), vs⟩ := by
        simp only [downcastCol]; rw [if_pos h]
      rw [h1]
      simp only [downcastCol]
      rw [if_neg (by omega)]
    · have h1 : downcastCol ⟨n, .sint w, vs⟩ = ⟨n, .sint w, vs⟩ := by
        simp only [downcastCol]; rw [if_neg h]
      rw [h1]; exact h1
  case nInt =>
    by_cases h : minSignedWidth (intBounds vs).1 (intBounds vs).2 < w
    · have h1 : downcastCol ⟨n, .nInt w, vs⟩ =
          ⟨n, .nInt (minSignedWidth (intBounds vs).1 (intBounds vs).2), vs⟩ := by
        simp only [downcastCol]; rw [if_pos h]
      rw [h1]
      simp only [downcastCol]
      rw [if_neg (by omega)]
    · have h1 : downcastCol ⟨n, .nInt w, vs⟩ = ⟨n, .nInt w, vs⟩ := by
        simp only [downcastCol]; rw [if_neg h]
      rw [h1]; exact h1
  case nUInt =>
    by_cases h : minSignedWidth (intBounds vs).1 (intBounds vs).2 ≤ w
    · have h1 : downcastCol ⟨n, .nUInt w, vs⟩ =
          ⟨n, .nInt (minSignedWidth (intBounds vs).1 (intBounds vs).2), vs⟩ := by
        simp only [downcastCol]; rw [if_pos h]
      rw [h1]
      simp only [downcastCol]
      rw [if_neg (by omega)]
    · have h1 : downcastCol ⟨n, .nUInt w, vs⟩ = ⟨n, .nUInt w, vs⟩ := by
        simp only [downcastCol]; rw [if_neg h]
      rw [h1]; exact h1

/-! ## Schema (column-name) tracking through the stages -/

theorem names_map {f : Column → Column} (hf : ∀ c, (f c).name = c.name)
    (t : Table) : (Table.mk (t.cols.map f)).names = t.names := by
  simp only [Table.names, List.map_map]
  exact List.map_congr_left fun c _ => by simp [Function.comp, hf]

theorem coerceDatetimes_names (parse : Value → Option Int) (t : Table) :
    (coerceDatetimes parse t).names = t.names := by
  apply names_map
  intro c
  dsimp only
  split <;> rfl

theorem applyFilter_names (t : Table) : (applyFilter t).names = t.names :=
  names_map (f := fun c => { c with values := maskFilter (buildMask t) c.values })
    (fun _ => rfl) t

theorem toCategoricals_names (t : Table) : (toCategoricals t).names = t.names := by
  apply names_map
  intro c
  dsimp only
  split <;> rfl

theorem downcast_numeric_names (t : Table) :
    (downcast_numeric t).names = t.names :=
  names_map downcastCol_name t

theorem setCol_notMem {t : Table} {c : Column} {x : String}
    (hx : x ≠ c.name) (h : x ∉ t.names) : x ∉ (t.setCol c).names := by
  rw [Table.setCol]
  split
  · rw [names_map (f := fun c0 => if c0.name = c.name then c else c0)
      (fun c0 => by dsimp only; split <;> simp_all)]
    exact h
  · simp only [Table.names, List.map_append, List.map_cons, List.map_nil]
    rw [List.mem_append]
    rintro (h1 | h2)
    · exact h h1
    · simp at h2
      exact hx h2

theorem mem_names_of_getCol {t : Table} {n : String} {c : Column}
    (h : t.getCol n = some c) : n ∈ t.names := by
  obtain ⟨hc, hcn⟩ := getCol_mem h
  exact hcn ▸ List.mem_map.mpr ⟨c, hc, rfl⟩

theorem addPickupFeatures_notMem {t : Table} {x : String}
    (h1 : x ≠ "pickup_hour") (h2 : x ≠ "pickup_dayofweek")
    (h3 : x ≠ "pickup_month") (h : x ∉ t.names) :
    x ∉ (addPickupFeatures t).names := by
  rw [addPickupFeatures]
  rcases hc : t.getCol "tpep_pickup_datetime" with _ | c
  · exact h
  · exact setCol_notMem h3 (setCol_notMem h2 (setCol_notMem h1 h))

theorem addDuration_notMem {t : Table} {x : String}
    (h1 : x ≠ "trip_duration_min") (h : x ∉ t.names) :
    x ∉ (addDuration t).names := by
  rw [addDuration]
  rcases hd : t.getCol "tpep_dropoff_datetime" with _ | cd
  · exact h
  · rcases hp : t.getCol "tpep_pickup_datetime" with _ | cp
    · exact h
    · exact setCol_notMem h1 h

theorem dropRawDatetimes_not_datetime {t : Table} {x : String}
    (hx : x ∈ DATETIME_COLS) : x ∉ (dropRawDatetimes t).names := by
  rw [dropRawDatetimes, Table.names]
  intro hmem
  obtain ⟨c, hc, hcn⟩ := List.mem_map.mp hmem
  have hp := List.of_mem_filter hc
  simp only [Bool.not_eq_true', decide_eq_false_iff_not] at hp
  exact hp (hcn ▸ hx)

theorem dropRawDatetimes_notMem {t : Table} {x : String}
    (h : x ∉ t.names) : x ∉ (dropRawDatetimes t).names := by
  rw [dropRawDatetimes, Table.names]
  intro hmem
  obtain ⟨c, hc, hcn⟩ := List.mem_map.mp hmem
  exact h (List.mem_map.mpr ⟨c, List.mem_of_mem_filter hc, hcn⟩)

theorem encodeFlag_names (t : Table) : (encodeFlag t).names = t.names := by
  rw [encodeFlag]
  rcases hc : t.getCol "store_and_fwd_flag" with _ | c
  · rfl
  · simp only [Table.setCol]
    have hmem : "store_and_fwd_flag" ∈ t.names := mem_names_of_getCol hc
    rw [if_pos hmem]
    exact names_map (fun c0 => by dsimp only; split <;> simp_all) t

theorem legacyOne_notMem {parse : Value → Option Int} {t : Table} {x c : String}
    (h1 : x ≠ c ++ "_epoch") (h2 : x ≠ c ++ "_hour") (h3 : x ≠ c ++ "_dow")
    (h : x ∉ t.names) : x ∉ (legacyOne parse t c).names := by
  rw [legacyOne]
  rcases hc : t.getCol c with _ | col
  · exact h
  · have hxc : x ≠ c := by
      intro he
      exact h (he ▸ mem_names_of_getCol hc)
    have hname : (if col.dtype ≠ .datetime then coerceCol parse col else col).name = c := by
      have := (getCol_mem hc).2
      split
      · exact this
      · exact this
    refine setCol_notMem h3 (setCol_notMem h2 (setCol_notMem h1 (setCol_notMem ?_ h)))
    rw [hname]
    exact hxc

/-- **C3 counterexample** — An input whose schema has the legacy raw
timestamp column `pickup_datetime` yields an output schema that still
contains `pickup_datetime`: the source drops only the `tpep_*` pair
(lines 88-91) and leaves the legacy drop commented out (line 132). -/
theorem C3_counterexample :
    "pickup_datetime" ∈
      (pipeline (fun _ => none) neededList
        ⟨[⟨"pickup_datetime", .obj, [.str "2010-01-04 11:00:00"]⟩]⟩).names := by
  decide

/-- **C3 amended** — No *primary* raw timestamp column name
(`tpep_pickup_datetime`, `tpep_dropoff_datetime`) appears in the output
schema, for every input and parser; the legacy pair, when present in the
input, is retained in the output. -/
theorem C3_no_primary_raw_timestamp_in_output
    (parse : Value → Option Int) (order : List String) (input : Table)
    (x : String) (hx : x ∈ DATETIME_COLS) :
    x ∉ (pipeline parse order input).names := by
  rw [pipeline, downcast_numeric_names, toCategoricals_names]
  have hx1 : x = "tpep_pickup_datetime" ∨ x = "tpep_dropoff_datetime" := by
    simpa [DATETIME_COLS] using hx
  rw [legacyConversions]
  refine legacyOne_notMem ?_ ?_ ?_ (legacyOne_notMem ?_ ?_ ?_ ?_) <;>
    first
      | (rcases hx1 with h | h <;> rw [h] <;> decide)
      | skip
  rw [applyFilter_names, preFilterTable, encodeFlag_names]
  exact dropRawDatetimes_not_datetime hx

/-- **C3 witness** — the amended theorem applied at a concrete input. -/
theorem C3_witness :
    "tpep_pickup_datetime" ∈ DATETIME_COLS ∧
      "tpep_pickup_datetime" ∉
        (pipeline (fun _ => none) neededList
          ⟨[⟨"tpep_pickup_datetime", .datetime, [.ts 0]⟩]⟩).names :=
  ⟨by decide,
   C3_no_primary_raw_timestamp_in_output (fun _ => none) neededList
     ⟨[⟨"tpep_pickup_datetime", .datetime, [.ts 0]⟩]⟩
     "tpep_pickup_datetime" (by decide)⟩

theorem load_names_subset {columns : List String} {input : Table} {x : String}
    (h : x ∈ (load columns input).names) : x ∈ columns := by
  rw [load, Table.names] at h
  obtain ⟨c, hc, hcn⟩ := List.mem_map.mp h
  obtain ⟨n, hn, hgc⟩ := List.mem_filterMap.mp hc
  have h2 := (getCol_mem hgc).2
  rw [← hcn, h2]
  exact hn

theorem selectColumns_no_leakage {order fileCols : List String} {x : String}
    (h : x ∈ selectColumns order fileCols) : x ∉ LEAKAGE_COLS := by
  rw [selectColumns] at h
  have := List.of_mem_filter h
  simpa using this

/-- **C4 counterexample** — The probe read of line 36
(`pd.read_parquet(in_path, columns=None)`) materializes the whole input,
so on an input containing the leakage column `fare_amount` the pipeline
does materialize a table carrying a leakage column. -/
theorem C4_counterexample :
    "fare_amount" ∈ LEAKAGE_COLS ∧
    probeRead ⟨[⟨"fare_amount", .float 64, [.float 1]⟩]⟩ ∈
      materializedTables (fun _ => none) neededList
        ⟨[⟨"fare_amount", .float 64, [.float 1]⟩]⟩ ∧
    "fare_amount" ∈ (probeRead ⟨[⟨"fare_amount", .float 64, [.float 1]⟩]⟩).names := by
  decide

/-- **C4 amended** — Every table value materialized from the pruned load
onward (line 68 load, line 115 filtered copy, the written output) is free
of leakage columns; only the full probe read of line 36 can carry them. -/
theorem C4_no_leakage_from_load_onward
    (parse : Value → Option Int) (order : List String) (input : Table)
    (x : String) (hx : x ∈ LEAKAGE_COLS)
    (t : Table) (ht : t ∈ (materializedTables parse order input).tail) :
    x ∉ t.names := by
  have hx8 : x = "fare_amount" ∨ x = "extra" ∨ x = "mta_tax" ∨ x = "tip_amount" ∨
      x = "tolls_amount" ∨ x = "improvement_surcharge" ∨
      x = "congestion_surcharge" ∨ x = "airport_fee" := by
    simpa [LEAKAGE_COLS] using hx
  have hne : ∀ s : String, s ∈ ["pickup_hour", "pickup_dayofweek", "pickup_month",
      "trip_duration_min", "pickup_datetime" ++ "_epoch", "pickup_datetime" ++ "_hour",
      "pickup_datetime" ++ "_dow", "dropoff_datetime" ++ "_epoch",
      "dropoff_datetime" ++ "_hour", "dropoff_datetime" ++ "_dow"] → x ≠ s := by
    rcases hx8 with h | h | h | h | h | h | h | h <;> subst h <;> decide
  have hload : x ∉ (load (selectColumns order input.names) input).names := by
    intro hmem
    exact selectColumns_no_leakage (load_names_subset hmem) hx
  have hpre : x ∉ (preFilterTable parse order input).names := by
    rw [preFilterTable, encodeFlag_names]
    apply dropRawDatetimes_notMem
    apply addDuration_notMem (hne _ (by decide))
    apply addPickupFeatures_notMem (hne _ (by decide)) (hne _ (by decide))
      (hne _ (by decide))
    rw [loadedTable, coerceDatetimes_names]
    exact hload
  have hfil : x ∉ (applyFilter (preFilterTable parse order input)).names := by
    rw [applyFilter_names]
    exact hpre
  have hout : x ∉ (pipeline parse order input).names := by
    rw [pipeline, downcast_numeric_names, toCategoricals_names, legacyConversions]
    refine legacyOne_notMem (hne _ (by decide)) (hne _ (by decide)) (hne _ (by decide))
      (legacyOne_notMem (hne _ (by decide)) (hne _ (by decide)) (hne _ (by decide)) hfil)
  simp only [materializedTables, List.tail_cons, List.mem_cons,
    List.mem_singleton, List.not_mem_nil] at ht
  rcases ht with rfl | rfl | rfl | hF
  · exact hload
  · exact hfil
  · exact hout
  · exact hF.elim

/-- **C4 witness** — the amended theorem applied at a concrete input. -/
theorem C4_witness :
    "fare_amount" ∈ LEAKAGE_COLS ∧
    (load (selectColumns neededList
        (Table.names ⟨[⟨"fare_amount", .float 64, [.float 1]⟩]⟩))
        ⟨[⟨"fare_amount", .float 64, [.float 1]⟩]⟩) ∈
      (materializedTables (fun _ => none) neededList
        ⟨[⟨"fare_amount", .float 64, [.float 1]⟩]⟩).tail ∧
    "fare_amount" ∉ (load (selectColumns neededList
        (Table.names ⟨[⟨"fare_amount", .float 64, [.float 1]⟩]⟩))
        ⟨[⟨"fare_amount", .float 64, [.float 1]⟩]⟩).names :=
  ⟨by decide, by decide,
   C4_no_leakage_from_load_onward (fun _ => none) neededList
     ⟨[⟨"fare_amount", .float 64, [.float 1]⟩]⟩ "fare_amount" (by decide)
     _ (by decide)⟩

/-! ## Reading columns back after `setCol` -/

theorem find?_map_replace (cols : List Column) (c : Column)
    (h : c.name ∈ cols.map Column.name) :
    (cols.map (fun c0 => if c0.name = c.name then c else c0)).find?
      (fun x => x.name == c.name) = some c := by
  induction cols with
  | nil => simp at h
  | cons c0 cs ih =>
    by_cases h0 : c0.name = c.name
    · simp only [List.map_cons, if_pos h0]
      exact List.find?_cons_of_pos _ (by simp)
    · simp only [List.map_cons, List.mem_cons] at h
      rcases h with h | h
      · exact absurd h.symm h0
      · simp only [List.map_cons, if_neg h0]
        rw [List.find?_cons_of_neg _ (by simp [h0])]
        exact ih h

theorem find?_map_replace_ne (cols : List Column) (c : Column) (n : String)
    (hn : n ≠ c.name) :
    (cols.map (fun c0 => if c0.name = c.name then c else c0)).find?
      (fun x => x.name == n) = cols.find? (fun x => x.name == n) := by
  induction cols with
  | nil => rfl
  | cons c0 cs ih =>
    by_cases h0 : c0.name = c.name
    · simp only [List.map_cons, if_pos h0]
      rw [List.find?_cons_of_neg _ (by simp [Ne.symm hn]),
        List.find?_cons_of_neg _ (by simp [h0, Ne.symm hn])]
      exact ih
    · simp only [List.map_cons, if_neg h0]
      by_cases hp : c0.name = n
      · rw [List.find?_cons_of_pos _ (by simp [hp]),
          List.find?_cons_of_pos _ (by simp [hp])]
      · rw [List.find?_cons_of_neg _ (by simp [hp]),
          List.find?_cons_of_neg _ (by simp [hp])]
        exact ih

theorem setCol_getCol_self (t : Table) (c : Column) :
    (t.setCol c).getCol c.name = some c := by
  rw [Table.setCol]
  split
  case isTrue h => exact find?_map_replace t.cols c h
  case isFalse h =>
    show (t.cols ++ [c]).find? (fun x => x.name == c.name) = some c
    rw [List.find?_append]
    have h1 : t.cols.find? (fun x => x.name == c.name) = none :=
      getCol_eq_none.mpr h
    rw [h1]
    simp

theorem setCol_getCol_ne {t : Table} {c : Column} {n : String}
    (hn : n ≠ c.name) : (t.setCol c).getCol n = t.getCol n := by
  rw [Table.setCol]
  split
  · exact find?_map_replace_ne t.cols c n hn
  · show (t.cols ++ [c]).find? (fun x => x.name == n) = _
    rw [List.find?_append]
    have h1 : List.find? (fun x => x.name == n) [c] = none := by
      simp [Ne.symm hn]
    rw [h1]
    show (t.cols.find? (fun x => x.name == n)).or none = t.getCol n
    rw [Option.or_none]
    rfl

theorem setCol_colValues_self (t : Table) (c : Column) :
    (t.setCol c).colValues c.name = c.values := by
  rw [Table.colValues, setCol_getCol_self]

theorem setCol_colValues_ne {t : Table} {c : Column} {n : String}
    (hn : n ≠ c.name) : (t.setCol c).colValues n = t.colValues n := by
  rw [Table.colValues, setCol_getCol_ne hn, Table.colValues]

/-! ## Filter semantics -/

theorem zipWith_and_getElem {p : Value → Bool} :
    ∀ {m : List Bool} {vs : List Value} {i : Nat} {b : Bool},
    (List.zipWith (fun b v => b && p v) m vs)[i]? = some b →
    ∃ b0 v, m[i]? = some b0 ∧ vs[i]? = some v ∧ b = (b0 && p v) := by
  intro m
  induction m with
  | nil => intro vs i b h; simp at h
  | cons b0 bs ih =>
    intro vs i b h
    cases vs with
    | nil => simp at h
    | cons v vs =>
      cases i with
      | zero =>
        simp only [List.zipWith_cons_cons, List.getElem?_cons_zero,
          Option.some_inj] at h
        exact ⟨b0, v, by simp, by simp, h.symm⟩
      | succ j =>
        simp only [List.zipWith_cons_cons, List.getElem?_cons_succ] at h ⊢
        exact ih h

theorem maskFilter_mem {xs : List α} {x : α} :
    ∀ {m : List Bool}, x ∈ maskFilter m xs →
      ∃ i : Nat, m[i]? = some true ∧ xs[i]? = some x := by
  induction xs with
  | nil =>
    intro m h
    rcases m with _ | ⟨b, bs⟩
    · simp [maskFilter] at h
    · cases b <;> simp [maskFilter] at h
  | cons y ys ih =>
    intro m h
    rcases m with _ | ⟨b, bs⟩
    · simp [maskFilter] at h
    · cases b with
      | false =>
        obtain ⟨i, h1, h2⟩ := ih (show x ∈ maskFilter bs ys from h)
        refine ⟨i + 1, ?_, ?_⟩
        · simpa using h1
        · simpa using h2
      | true =>
        rw [show maskFilter (true :: bs) (y :: ys) = y :: maskFilter bs ys from rfl] at h
        rcases List.mem_cons.mp h with rfl | h
        · exact ⟨0, by simp, by simp⟩
        · obtain ⟨i, h1, h2⟩ := ih h
          refine ⟨i + 1, ?_, ?_⟩
          · simpa using h1
          · simpa using h2

theorem maskCol_true_mono {t : Table} {n : String} {p : Value → Bool}
    {m : List Bool} {i : Nat}
    (h : (maskCol t n p m)[i]? = some true) : m[i]? = some true := by
  rw [maskCol] at h
  rcases hg : t.getCol n with _ | c
  · rw [hg] at h; exact h
  · rw [hg] at h
    obtain ⟨b0, v, h1, _, h3⟩ := zipWith_and_getElem h
    have hb : b0 = true := by
      rcases b0 with _ | _
      · simp at h3
      · rfl
    rw [← hb]
    exact h1

theorem maskCol_true_pred {t : Table} {n : String} {p : Value → Bool}
    {m : List Bool} {i : Nat} {c : Column} (hc : t.getCol n = some c)
    (h : (maskCol t n p m)[i]? = some true) :
    ∃ v, c.values[i]? = some v ∧ p v = true := by
  rw [maskCol, hc] at h
  obtain ⟨b0, v, _, h2, h3⟩ := zipWith_and_getElem h
  have hp : p v = true := by
    rcases hpv : p v with _ | _
    · rw [hpv] at h3; simp at h3
    · rfl
  exact ⟨v, h2, hp⟩

theorem maskFilter_nil (m : List Bool) : maskFilter m ([] : List α) = [] := by
  rcases m with _ | ⟨b, bs⟩
  · rfl
  · cases b <;> rfl

theorem applyFilter_colValues (t : Table) (n : String) :
    (applyFilter t).colValues n = maskFilter (buildMask t) (t.colValues n) := by
  rw [applyFilter, Table.colValues,
    getCol_map (f := fun c => { c with values := maskFilter (buildMask t) c.values })
      (fun _ => rfl), Table.colValues]
  rcases t.getCol n with _ | c
  · exact (maskFilter_nil _).symm
  · rfl

/-- The eight predicate conjunctions of `buildMask`, read back from a true
mask bit: the bit survives every `maskCol` step. -/
theorem buildMask_eq (t : Table) :
    buildMask t =
      maskCol t "trip_duration_min" vGt0 (maskCol t "trip_distance" vGe0
        (maskCol t "trip_distance" vNotna (maskCol t "pickup_dayofweek" vNotna
          (maskCol t "pickup_hour" vNotna (maskCol t "trip_duration_min" vNotna
            (maskCol t TARGET vGe0 (maskCol t TARGET vNotna
              (List.replicate t.nrows true)))))))) := rfl

/-! ## Column values through the stages, off the touched names -/

theorem coerceDatetimes_getCol_ne (parse : Value → Option Int) {t : Table}
    {n : String} (hn : n ∉ DATETIME_COLS) :
    (coerceDatetimes parse t).getCol n = t.getCol n := by
  rw [coerceDatetimes, getCol_map (fun c => by split <;> rfl)]
  rcases hg : t.getCol n with _ | c
  · rfl
  · have hcn : c.name = n := (getCol_mem hg).2
    show some (if decide (c.name ∈ DATETIME_COLS) && !(c.dtype == DType.datetime) then
      coerceCol parse c else c) = some c
    rw [if_neg (by
      simp only [Bool.and_eq_true, decide_eq_true_eq]
      rintro ⟨h1, _⟩
      exact hn (hcn ▸ h1))]

theorem addPickupFeatures_colValues_ne {t : Table} {n : String}
    (h1 : n ≠ "pickup_hour") (h2 : n ≠ "pickup_dayofweek")
    (h3 : n ≠ "pickup_month") :
    (addPickupFeatures t).colValues n = t.colValues n := by
  rw [addPickupFeatures]
  rcases hc : t.getCol "tpep_pickup_datetime" with _ | c
  · rfl
  · rw [setCol_colValues_ne h3, setCol_colValues_ne h2, setCol_colValues_ne h1]

theorem addDuration_colValues_ne {t : Table} {n : String}
    (h1 : n ≠ "trip_duration_min") :
    (addDuration t).colValues n = t.colValues n := by
  rw [addDuration]
  rcases hd : t.getCol "tpep_dropoff_datetime" with _ | cd
  · rfl
  · rcases hp : t.getCol "tpep_pickup_datetime" with _ | cp
    · rfl
    · rw [setCol_colValues_ne h1]

theorem dropRawDatetimes_getCol_ne {t : Table} {n : String}
    (hn : n ∉ DATETIME_COLS) :
    (dropRawDatetimes t).getCol n = t.getCol n := by
  rw [dropRawDatetimes]
  rcases t with ⟨cols⟩
  show List.find? _ (cols.filter _) = List.find? _ cols
  induction cols with
  | nil => rfl
  | cons c0 cs ih =>
    by_cases hk : c0.name ∈ DATETIME_COLS
    · rw [List.filter_cons_of_neg (by simp [hk])]
      rw [List.find?_cons_of_neg _ (by
        simp only [beq_iff_eq]
        intro he
        exact hn (he ▸ hk))]
      exact ih
    · rw [List.filter_cons_of_pos (by simp [hk])]
      by_cases hp : c0.name = n
      · rw [List.find?_cons_of_pos _ (by simp [hp]),
          List.find?_cons_of_pos _ (by simp [hp])]
      · rw [List.find?_cons_of_neg _ (by simp [hp]),
          List.find?_cons_of_neg _ (by simp [hp])]
        exact ih

theorem encodeFlag_colValues_ne {t : Table} {n : String}
    (hn : n ≠ "store_and_fwd_flag") :
    (encodeFlag t).colValues n = t.colValues n := by
  rw [encodeFlag]
  rcases hc : t.getCol "store_and_fwd_flag" with _ | c
  · rfl
  · rw [setCol_colValues_ne hn]

theorem legacyOne_colValues_ne {parse : Value → Option Int} {t : Table}
    {c n : String} (h1 : n ≠ c) (h2 : n ≠ c ++ "_epoch")
    (h3 : n ≠ c ++ "_hour") (h4 : n ≠ c ++ "_dow") :
    (legacyOne parse t c).colValues n = t.colValues n := by
  rw [legacyOne]
  rcases hc : t.getCol c with _ | col
  · rfl
  · have hname : (if col.dtype ≠ DType.datetime then coerceCol parse col else col).name = c := by
      split
      · exact (getCol_mem hc).2
      · exact (getCol_mem hc).2
    rw [setCol_colValues_ne h4, setCol_colValues_ne h3, setCol_colValues_ne h2,
      setCol_colValues_ne (by rw [hname]; exact h1)]

theorem toCategoricals_colValues (t : Table) (n : String) :
    (toCategoricals t).colValues n = t.colValues n := by
  rw [toCategoricals]
  exact colValues_map (fun c => by split <;> rfl)
    (fun c => by split <;> rfl) t n

theorem downcast_numeric_colValues (t : Table) (n : String) :
    (downcast_numeric t).colValues n = t.colValues n :=
  colValues_map downcastCol_name downcastCol_values t n

/-- Column values of the written output, for a name untouched by the
post-filter stages (neither a legacy column nor one of its derivatives):
they are exactly the mask-filtered pre-filter values. -/
theorem pipeline_colValues_stable (parse : Value → Option Int)
    (order : List String) (input : Table) {n : String}
    (h1 : n ≠ "pickup_datetime") (h2 : n ≠ "pickup_datetime" ++ "_epoch")
    (h3 : n ≠ "pickup_datetime" ++ "_hour") (h4 : n ≠ "pickup_datetime" ++ "_dow")
    (h5 : n ≠ "dropoff_datetime") (h6 : n ≠ "dropoff_datetime" ++ "_epoch")
    (h7 : n ≠ "dropoff_datetime" ++ "_hour") (h8 : n ≠ "dropoff_datetime" ++ "_dow") :
    (pipeline parse order input).colValues n =
      maskFilter (buildMask (preFilterTable parse order input))
        ((preFilterTable parse order input).colValues n) := by
  rw [pipeline, downcast_numeric_colValues, toCategoricals_colValues,
    legacyConversions, legacyOne_colValues_ne h5 h6 h7 h8,
    legacyOne_colValues_ne h1 h2 h3 h4, applyFilter_colValues]

/-! ## The filter mask only reads the five predicate columns -/

theorem maskCol_eq_of_agree {t2 t : Table} {n : String}
    (hmem : n ∈ t2.names ↔ n ∈ t.names)
    (hvals : t2.colValues n = t.colValues n)
    (p : Value → Bool) (m : List Bool) :
    maskCol t2 n p m = maskCol t n p m := by
  rw [maskCol, maskCol]
  rcases h2 : t2.getCol n with _ | c2 <;> rcases h1 : t.getCol n with _ | c1
  · rfl
  · exact absurd (hmem.mpr (mem_names_of_getCol h1)) (getCol_eq_none.mp h2)
  · exact absurd (hmem.mp (mem_names_of_getCol h2)) (getCol_eq_none.mp h1)
  · have e : c2.values = c1.values := by
      have e2 : t2.colValues n = c2.values := by rw [Table.colValues, h2]
      have e1 : t.colValues n = c1.values := by rw [Table.colValues, h1]
      rw [← e2, ← e1, hvals]
    show List.zipWith (fun b v => b && p v) m c2.values =
      List.zipWith (fun b v => b && p v) m c1.values
    rw [e]

/-- `buildMask` never reads `store_and_fwd_flag`: two tables with the same
schema and row count that agree on every column other than the flag column
get the identical mask. -/
theorem buildMask_flag_independent {t2 t : Table}
    (hnames : t2.names = t.names) (hrows : t2.nrows = t.nrows)
    (hvals : ∀ n, n ≠ "store_and_fwd_flag" → t2.colValues n = t.colValues n) :
    buildMask t2 = buildMask t := by
  have hm : ∀ n, n ≠ "store_and_fwd_flag" →
      ∀ (p : Value → Bool) (m : List Bool), maskCol t2 n p m = maskCol t n p m :=
    fun n hn p m => maskCol_eq_of_agree (by rw [hnames]) (hvals n hn) p m
  simp only [buildMask_eq, hrows, hm TARGET (by decide),
    hm "trip_duration_min" (by decide), hm "pickup_hour" (by decide),
    hm "pickup_dayofweek" (by decide), hm "trip_distance" (by decide)]

/-- **C8** — `store_and_fwd_flag` is mapped "Y" to `1`, "N" to `0`, and
anything else to null (line 95), and the filter mask never reads the flag
column, so a row with a null flag is only removed when it fails some
other present predicate. -/
theorem C8_flag_mapping (t : Table) (c : Column)
    (hc : t.getCol "store_and_fwd_flag" = some c) :
    (encodeFlag t).colValues "store_and_fwd_flag" = c.values.map flagMap ∧
    flagMap (.str "Y") = .int 1 ∧ flagMap (.str "N") = .int 0 ∧
    (∀ v, v ≠ .str "Y" → v ≠ .str "N" → flagMap v = .null) ∧
    (∀ t2 : Table, t2.names = t.names → t2.nrows = t.nrows →
      (∀ n, n ≠ "store_and_fwd_flag" → t2.colValues n = t.colValues n) →
      buildMask t2 = buildMask t) := by
  refine ⟨?_, rfl, rfl, ?_, ?_⟩
  · simp only [encodeFlag, hc]
    rw [setCol_colValues_self]
  · intro v h1 h2
    rw [flagMap, if_neg h1, if_neg h2]
  · exact fun t2 ha hb hc2 => buildMask_flag_independent ha hb hc2

/-- **C8 witness** — the theorem applied at a concrete table. -/
theorem C8_witness :
    (Table.getCol ⟨[⟨"store_and_fwd_flag", .obj, [.str "Y", .str "N", .str "?"]⟩]⟩
        "store_and_fwd_flag" =
      some ⟨"store_and_fwd_flag", .obj, [.str "Y", .str "N", .str "?"]⟩) ∧
    (encodeFlag ⟨[⟨"store_and_fwd_flag", .obj, [.str "Y", .str "N", .str "?"]⟩]⟩).colValues
        "store_and_fwd_flag" =
      (Column.values ⟨"store_and_fwd_flag", .obj, [.str "Y", .str "N", .str "?"]⟩).map flagMap :=
  ⟨by decide,
   (C8_flag_mapping ⟨[⟨"store_and_fwd_flag", .obj, [.str "Y", .str "N", .str "?"]⟩]⟩
     ⟨"store_and_fwd_flag", .obj, [.str "Y", .str "N", .str "?"]⟩ (by decide)).1⟩

/-! ## Reading the loaded table -/

theorem load_find?_mem {input : Table} {n : String} :
    ∀ {cs : List String}, n ∈ cs →
      (List.filterMap (fun k => input.getCol k) cs).find? (fun x => x.name == n) =
        input.getCol n := by
  intro cs
  induction cs with
  | nil => intro h; simp at h
  | cons m ms ih =>
    intro h
    rw [List.filterMap_cons]
    by_cases hmn : m = n
    · subst hmn
      rcases hm : input.getCol m with _ | cm
      · show List.find? (fun x => x.name == m)
            (List.filterMap (fun k => input.getCol k) ms) = none
        by_cases hms : m ∈ ms
        · rw [ih hms, hm]
        · rw [List.find?_eq_none]
          intro x hx
          obtain ⟨k, hk, hgk⟩ := List.mem_filterMap.mp hx
          simp only [beq_iff_eq]
          intro hxn
          exact hms (hxn ▸ (getCol_mem hgk).2 ▸ hk)
      · show List.find? (fun x => x.name == m)
            (cm :: List.filterMap (fun k => input.getCol k) ms) = some cm
        rw [List.find?_cons_of_pos _ (by simp [(getCol_mem hm).2])]
    · have h2 : n ∈ ms := by
        rcases List.mem_cons.mp h with h3 | h3
        · exact absurd h3.symm hmn
        · exact h3
      rcases hm : input.getCol m with _ | cm
      · show List.find? (fun x => x.name == n)
            (List.filterMap (fun k => input.getCol k) ms) = input.getCol n
        exact ih h2
      · show List.find? (fun x => x.name == n)
            (cm :: List.filterMap (fun k => input.getCol k) ms) = input.getCol n
        rw [List.find?_cons_of_neg _ (by simp [(getCol_mem hm).2, hmn])]
        exact ih h2

theorem load_getCol_mem {columns : List String} {input : Table} {n : String}
    (h : n ∈ columns) : (load columns input).getCol n = input.getCol n :=
  load_find?_mem h

theorem mem_selectColumns {order fileCols : List String} {x : String} :
    x ∈ selectColumns order fileCols ↔
      (x ∈ order ∧ x ∈ fileCols) ∧ x ∉ LEAKAGE_COLS := by
  simp only [selectColumns, List.mem_filter, decide_eq_true_eq,
    Bool.not_eq_true', decide_eq_false_iff_not]

/-! ## `getCol` through the stages, off the touched names -/

theorem addPickupFeatures_getCol_ne {t : Table} {n : String}
    (h1 : n ≠ "pickup_hour") (h2 : n ≠ "pickup_dayofweek")
    (h3 : n ≠ "pickup_month") :
    (addPickupFeatures t).getCol n = t.getCol n := by
  rw [addPickupFeatures]
  rcases hc : t.getCol "tpep_pickup_datetime" with _ | c
  · rfl
  · rw [setCol_getCol_ne h3, setCol_getCol_ne h2, setCol_getCol_ne h1]

theorem addDuration_getCol_ne {t : Table} {n : String}
    (h1 : n ≠ "trip_duration_min") :
    (addDuration t).getCol n = t.getCol n := by
  rw [addDuration]
  rcases hd : t.getCol "tpep_dropoff_datetime" with _ | cd
  · rfl
  · rcases hp : t.getCol "tpep_pickup_datetime" with _ | cp
    · rfl
    · rw [setCol_getCol_ne h1]

theorem encodeFlag_getCol_ne {t : Table} {n : String}
    (hn : n ≠ "store_and_fwd_flag") :
    (encodeFlag t).getCol n = t.getCol n := by
  rw [encodeFlag]
  rcases hc : t.getCol "store_and_fwd_flag" with _ | c
  · rfl
  · rw [setCol_getCol_ne hn]

/-- The pre-filter table holds the target column exactly as loaded from
the input: no stage before the filter touches it. -/
theorem preFilterTable_getCol_target (parse : Value → Option Int)
    (order : List String) (input : Table) :
    (preFilterTable parse order input).getCol TARGET =
      (load (selectColumns order input.names) input).getCol TARGET := by
  rw [preFilterTable, encodeFlag_getCol_ne (by decide),
    dropRawDatetimes_getCol_ne (by decide),
    addDuration_getCol_ne (by decide),
    addPickupFeatures_getCol_ne (by decide) (by decide) (by decide),
    loadedTable, coerceDatetimes_getCol_ne parse (by decide)]

/-! ## Membership in the output schema -/

theorem setCol_mem {t : Table} (c : Column) {n : String}
    (h : n ∈ t.names) : n ∈ (t.setCol c).names := by
  rw [Table.setCol]
  split
  · rwa [names_map (f := fun c0 => if c0.name = c.name then c else c0)
      (fun c0 => by dsimp only; split <;> simp_all)]
  · simp only [Table.names, List.map_append]
    exact List.mem_append_left _ h

theorem legacyOne_mem {parse : Value → Option Int} {t : Table} {c n : String}
    (h : n ∈ t.names) : n ∈ (legacyOne parse t c).names := by
  rw [legacyOne]
  rcases hc : t.getCol c with _ | col
  · exact h
  · exact setCol_mem _ (setCol_mem _ (setCol_mem _ (setCol_mem _ h)))

/-- From a true bit of the combined mask, the target predicates of
lines 100-102 hold at that row (when the target column is present). -/
theorem buildMask_true_target {t : Table} {c : Column} {i : Nat}
    (hc : t.getCol TARGET = some c)
    (h : (buildMask t)[i]? = some true) :
    ∃ v, c.values[i]? = some v ∧ vNotna v = true ∧ vGe0 v = true := by
  rw [buildMask_eq] at h
  have h2 := maskCol_true_mono (maskCol_true_mono (maskCol_true_mono
    (maskCol_true_mono (maskCol_true_mono (maskCol_true_mono h)))))
  obtain ⟨v, hv, hge⟩ := maskCol_true_pred hc h2
  have h1 := maskCol_true_mono h2
  obtain ⟨v2, hv2, hnn⟩ := maskCol_true_pred hc h1
  have he : v2 = v := by
    rw [hv] at hv2
    exact (Option.some_inj.mp hv2).symm
  exact ⟨v, hv, he ▸ hnn, hge⟩

/-- **C1** — When the target column `total_amount` is present in the input
(and requested, as it always is: it belongs to the `needed` set), every
row of the output has a non-null, non-negative target value; when it is
absent, the target filter steps are skipped (they leave the mask
unchanged) and the pipeline still produces an output table, simply
without a target column. -/
theorem C1_target_nonnull_nonneg (parse : Value → Option Int)
    (order : List String) (input : Table) :
    (TARGET ∈ order → TARGET ∈ input.names →
      TARGET ∈ (pipeline parse order input).names ∧
      ∀ v ∈ (pipeline parse order input).colValues TARGET,
        v ≠ Value.null ∧ vGe0 v = true) ∧
    (TARGET ∉ input.names →
      (∀ (p : Value → Bool) (m : List Bool),
        maskCol (preFilterTable parse order input) TARGET p m = m) ∧
      TARGET ∉ (pipeline parse order input).names) := by
  constructor
  · intro hord hin
    have hsel : TARGET ∈ selectColumns order input.names :=
      mem_selectColumns.mpr ⟨⟨hord, hin⟩, by decide⟩
    obtain ⟨c0, hc0⟩ : ∃ c0, input.getCol TARGET = some c0 := by
      rcases hg : input.getCol TARGET with _ | c0
      · exact absurd hin (getCol_eq_none.mp hg)
      · exact ⟨c0, rfl⟩
    have hpre : (preFilterTable parse order input).getCol TARGET = some c0 := by
      rw [preFilterTable_getCol_target, load_getCol_mem hsel, hc0]
    constructor
    · rw [pipeline, downcast_numeric_names, toCategoricals_names, legacyConversions]
      apply legacyOne_mem
      apply legacyOne_mem
      rw [applyFilter_names]
      exact mem_names_of_getCol hpre
    · intro v hv
      rw [pipeline_colValues_stable parse order input (by decide) (by decide)
        (by decide) (by decide) (by decide) (by decide) (by decide) (by decide)] at hv
      obtain ⟨i, hmi, hvi⟩ := maskFilter_mem hv
      rw [show (preFilterTable parse order input).colValues TARGET = c0.values by
        rw [Table.colValues, hpre]] at hvi
      obtain ⟨v2, hv2, hnn, hge⟩ := buildMask_true_target hpre hmi
      have he : v2 = v := by
        rw [hvi] at hv2
        exact (Option.some_inj.mp hv2).symm
      refine ⟨?_, he ▸ hge⟩
      intro hnull
      rw [hnull] at he
      rw [he] at hnn
      simp [vNotna] at hnn
  · intro hin
    have hpren : TARGET ∉ (preFilterTable parse order input).names := by
      rw [preFilterTable, encodeFlag_names]
      apply dropRawDatetimes_notMem
      apply addDuration_notMem (by decide)
      apply addPickupFeatures_notMem (by decide) (by decide) (by decide)
      rw [loadedTable, coerceDatetimes_names]
      intro hmem
      have := load_names_subset hmem
      exact hin (mem_selectColumns.mp this).1.2
    refine ⟨?_, ?_⟩
    · intro p m
      rw [maskCol, getCol_eq_none.mpr hpren]
    · rw [pipeline, downcast_numeric_names, toCategoricals_names, legacyConversions]
      refine legacyOne_notMem (by decide) (by decide) (by decide)
        (legacyOne_notMem (by decide) (by decide) (by decide) ?_)
      rw [applyFilter_names]
      exact hpren

/-- **C1 witness** — the theorem applied at a concrete input: a target
column with values `[5, -1, null]` keeps only the row with `5`. -/
theorem C1_witness :
    (TARGET ∈ [TARGET] → TARGET ∈
        (Table.names ⟨[⟨"total_amount", .float 64,
          [.float 5, .float (-1), .null]⟩]⟩) →
      TARGET ∈ (pipeline (fun _ => none) [TARGET]
        ⟨[⟨"total_amount", .float 64, [.float 5, .float (-1), .null]⟩]⟩).names ∧
      ∀ v ∈ (pipeline (fun _ => none) [TARGET]
          ⟨[⟨"total_amount", .float 64, [.float 5, .float (-1), .null]⟩]⟩).colValues
            TARGET, v ≠ Value.null ∧ vGe0 v = true) ∧
    (pipeline (fun _ => none) [TARGET]
        ⟨[⟨"total_amount", .float 64, [.float 5, .float (-1), .null]⟩]⟩).colValues
      TARGET = [.float 5] :=
  ⟨(C1_target_nonnull_nonneg (fun _ => none) [TARGET]
      ⟨[⟨"total_amount", .float 64, [.float 5, .float (-1), .null]⟩]⟩).1,
   by decide⟩

theorem zipWith_getElem_both {f : α → β → γ} :
    ∀ {xs : List α} {ys : List β} {i : Nat} {x : α} {y : β},
    xs[i]? = some x → ys[i]? = some y →
    (List.zipWith f xs ys)[i]? = some (f x y) := by
  intro xs
  induction xs with
  | nil => intro ys i x y hx hy; simp at hx
  | cons a as ih =>
    intro ys i x y hx hy
    cases ys with
    | nil => simp at hy
    | cons b bs =>
      cases i with
      | zero =>
        simp only [List.getElem?_cons_zero, Option.some_inj] at hx hy
        subst hx; subst hy
        simp
      | succ j =>
        simp only [List.getElem?_cons_succ] at hx hy
        simp only [List.zipWith_cons_cons, List.getElem?_cons_succ]
        exact ih hx hy

/-- The pre-filter table holds `trip_duration_min` exactly as built by
`addDuration` from the coerced timestamp columns, when both are present. -/
theorem preFilterTable_getCol_duration (parse : Value → Option Int)
    (order : List String) (input : Table) {cd cp : Column}
    (hcd : (loadedTable parse order input).getCol "tpep_dropoff_datetime" = some cd)
    (hcp : (loadedTable parse order input).getCol "tpep_pickup_datetime" = some cp) :
    (preFilterTable parse order input).getCol "trip_duration_min" =
      some ⟨"trip_duration_min", .float 32, List.zipWith durVal cd.values cp.values⟩ := by
  rw [preFilterTable, encodeFlag_getCol_ne (by decide),
    dropRawDatetimes_getCol_ne (by decide)]
  have h2d : (addPickupFeatures (loadedTable parse order input)).getCol
      "tpep_dropoff_datetime" = some cd := by
    rw [addPickupFeatures_getCol_ne (by decide) (by decide) (by decide)]
    exact hcd
  have h2p : (addPickupFeatures (loadedTable parse order input)).getCol
      "tpep_pickup_datetime" = some cp := by
    rw [addPickupFeatures_getCol_ne (by decide) (by decide) (by decide)]
    exact hcp
  rw [addDuration, h2d, h2p]
  exact setCol_getCol_self _ _

/-- **C2** — With both primary timestamp columns present (and requested,
as they always are: they belong to the `needed` set), (a) every output
row's `trip_duration_min` is non-null and strictly positive; (b) before
the filter, `trip_duration_min` is pointwise `durVal` (the dropoff minus
pickup difference in minutes) of the coerced timestamp columns, and
coercion is the identity on valid timestamps, so the value corresponds to
the input row's timestamps; (c) a row whose dropoff is at or before its
pickup is never selected by the combined mask, hence is excluded. -/
theorem C2_duration_positive_and_exact (parse : Value → Option Int)
    (order : List String) (input : Table)
    (hdo : "tpep_dropoff_datetime" ∈ order)
    (hpo : "tpep_pickup_datetime" ∈ order)
    (hdi : "tpep_dropoff_datetime" ∈ input.names)
    (hpi : "tpep_pickup_datetime" ∈ input.names) :
    (∀ v ∈ (pipeline parse order input).colValues "trip_duration_min",
      v ≠ Value.null ∧ vGt0 v = true) ∧
    ((preFilterTable parse order input).colValues "trip_duration_min" =
      List.zipWith durVal
        ((loadedTable parse order input).colValues "tpep_dropoff_datetime")
        ((loadedTable parse order input).colValues "tpep_pickup_datetime")) ∧
    (∀ n : Int, coerceVal parse (.ts n) = .ts n) ∧
    (∀ (i : Nat) (d p : Int),
      ((loadedTable parse order input).colValues "tpep_dropoff_datetime")[i]? =
        some (.ts d) →
      ((loadedTable parse order input).colValues "tpep_pickup_datetime")[i]? =
        some (.ts p) →
      d ≤ p →
      (buildMask (preFilterTable parse order input))[i]? ≠ some true) := by
  have hseld : "tpep_dropoff_datetime" ∈ selectColumns order input.names :=
    mem_selectColumns.mpr ⟨⟨hdo, hdi⟩, by decide⟩
  have hselp : "tpep_pickup_datetime" ∈ selectColumns order input.names :=
    mem_selectColumns.mpr ⟨⟨hpo, hpi⟩, by decide⟩
  obtain ⟨cd0, hcd0⟩ : ∃ c, input.getCol "tpep_dropoff_datetime" = some c := by
    rcases hg : input.getCol "tpep_dropoff_datetime" with _ | c
    · exact absurd hdi (getCol_eq_none.mp hg)
    · exact ⟨c, rfl⟩
  obtain ⟨cp0, hcp0⟩ : ∃ c, input.getCol "tpep_pickup_datetime" = some c := by
    rcases hg : input.getCol "tpep_pickup_datetime" with _ | c
    · exact absurd hpi (getCol_eq_none.mp hg)
    · exact ⟨c, rfl⟩
  have hdmem : "tpep_dropoff_datetime" ∈ (loadedTable parse order input).names := by
    rw [loadedTable, coerceDatetimes_names]
    apply getCol_isSome.mp
    rw [load_getCol_mem hseld, hcd0]
    rfl
  have hpmem : "tpep_pickup_datetime" ∈ (loadedTable parse order input).names := by
    rw [loadedTable, coerceDatetimes_names]
    apply getCol_isSome.mp
    rw [load_getCol_mem hselp, hcp0]
    rfl
  obtain ⟨cd, hcd⟩ := Option.isSome_iff_exists.mp (getCol_isSome.mpr hdmem)
  obtain ⟨cp, hcp⟩ := Option.isSome_iff_exists.mp (getCol_isSome.mpr hpmem)
  have hdur := preFilterTable_getCol_duration parse order input hcd hcp
  have e1 : (preFilterTable parse order input).colValues "trip_duration_min" =
      List.zipWith durVal cd.values cp.values := by
    rw [Table.colValues, hdur]
  have e2 : (loadedTable parse order input).colValues "tpep_dropoff_datetime" =
      cd.values := by
    rw [Table.colValues, hcd]
  have e3 : (loadedTable parse order input).colValues "tpep_pickup_datetime" =
      cp.values := by
    rw [Table.colValues, hcp]
  refine ⟨?_, by rw [e1, e2, e3], fun n => rfl, ?_⟩
  · intro v hv
    rw [pipeline_colValues_stable parse order input (by decide) (by decide)
      (by decide) (by decide) (by decide) (by decide) (by decide) (by decide)] at hv
    obtain ⟨i, hmi, hvi⟩ := maskFilter_mem hv
    rw [buildMask_eq] at hmi
    obtain ⟨v2, hv2, hgt⟩ := maskCol_true_pred hdur hmi
    rw [e1] at hvi
    have he : v2 = v := by
      rw [hvi] at hv2
      exact (Option.some_inj.mp hv2).symm
    refine ⟨?_, he ▸ hgt⟩
    intro hnull
    rw [hnull] at he
    rw [he] at hgt
    simp [vGt0] at hgt
  · intro i d p hd2 hp2 hle habs
    rw [buildMask_eq] at habs
    obtain ⟨v2, hv2, hgt⟩ := maskCol_true_pred hdur habs
    rw [e2] at hd2
    rw [e3] at hp2
    have hzip := zipWith_getElem_both (f := durVal) hd2 hp2
    rw [hzip] at hv2
    have he : v2 = durVal (.ts d) (.ts p) := (Option.some_inj.mp hv2).symm
    rw [he] at hgt
    have hgt2 : (0 : ℚ) < mkRat (d - p) 60000000000 := by
      simpa [durVal, vGt0] using hgt
    have h1 : mkRat (d - p) 60000000000 ≤ 0 := by
      have h2 := Rat.mkRat_nonneg (a := p - d) (by omega) 60000000000
      rw [show (p - d) = -(d - p) by ring, ← Rat.neg_mkRat] at h2
      linarith
    exact absurd hgt2 (not_lt.mpr h1)

/-- **C2 witness** — the theorem applied at a concrete input: one row with
a one-minute trip (kept, duration `1.0`) and one row whose dropoff
precedes its pickup (excluded). -/
theorem C2_witness :
    ("tpep_dropoff_datetime" ∈ neededList) ∧
    ("tpep_pickup_datetime" ∈ neededList) ∧
    ("tpep_dropoff_datetime" ∈ Table.names ⟨[
      ⟨"tpep_pickup_datetime", .datetime, [.ts 0, .ts 60000000000]⟩,
      ⟨"tpep_dropoff_datetime", .datetime, [.ts 60000000000, .ts 0]⟩]⟩) ∧
    ("tpep_pickup_datetime" ∈ Table.names ⟨[
      ⟨"tpep_pickup_datetime", .datetime, [.ts 0, .ts 60000000000]⟩,
      ⟨"tpep_dropoff_datetime", .datetime, [.ts 60000000000, .ts 0]⟩]⟩) ∧
    ((pipeline (fun _ => none) neededList ⟨[
      ⟨"tpep_pickup_datetime", .datetime, [.ts 0, .ts 60000000000]⟩,
      ⟨"tpep_dropoff_datetime", .datetime, [.ts 60000000000, .ts 0]⟩]⟩).colValues
        "trip_duration_min" = [.float 1]) ∧
    (∀ v ∈ (pipeline (fun _ => none) neededList ⟨[
      ⟨"tpep_pickup_datetime", .datetime, [.ts 0, .ts 60000000000]⟩,
      ⟨"tpep_dropoff_datetime", .datetime, [.ts 60000000000, .ts 0]⟩]⟩).colValues
        "trip_duration_min", v ≠ Value.null ∧ vGt0 v = true) :=
  ⟨by decide, by decide, by decide, by decide, by decide,
   (C2_duration_positive_and_exact (fun _ => none) neededList ⟨[
      ⟨"tpep_pickup_datetime", .datetime, [.ts 0, .ts 60000000000]⟩,
      ⟨"tpep_dropoff_datetime", .datetime, [.ts 60000000000, .ts 0]⟩]⟩
     (by decide) (by decide) (by decide) (by decide)).1⟩

theorem tsHour_notna_ts {w : Value} (h : vNotna (tsHour w) = true) :
    ∃ m : Int, w = .ts m := by
  rcases w with _ | j | q | s | m
  case ts => exact ⟨m, rfl⟩
  all_goals simp [tsHour, vNotna] at h

/-- A name that is not in the `needed` set is never loaded. -/
theorem not_loaded_of_not_needed (parse : Value → Option Int)
    {order : List String} (input : Table)
    (horder : ∀ x ∈ order, x ∈ neededList) {n : String}
    (hn : n ∉ neededList) : n ∉ (loadedTable parse order input).names := by
  rw [loadedTable, coerceDatetimes_names]
  intro hmem
  exact hn (horder _ (mem_selectColumns.mp (load_names_subset hmem)).1.1)

/-- **C6 counterexample** — The legacy-path derived columns are computed
*after* the filter pass (lines 118-129 follow line 115), so an output row
can carry a null in a derived temporal column: an unparsable legacy
timestamp leaves a null in `pickup_datetime_hour` in the output. -/
theorem C6_counterexample :
    Value.null ∈ (pipeline (fun _ => none) neededList
      ⟨[⟨"pickup_datetime", .obj, [.str "junk"]⟩]⟩).colValues
        ("pickup_datetime" ++ "_hour") := by
  decide

/-- **C6 amended** — For the *primary-path* derived temporal columns: in
the pre-filter table, `pickup_hour`, `pickup_dayofweek`, `pickup_month`
are nullable `UInt8` and `trip_duration_min` is `float32` (NaN-nullable)
whenever they exist; and after the filter pass none of the four contains
a null in any output row.  (The legacy-path derived columns are created
only after the filter and may contain nulls, as the counterexample
shows; their epoch column is non-null by sentinel.) -/
theorem C6_primary_derived_nonnull (parse : Value → Option Int)
    (order : List String) (input : Table)
    (horder : ∀ x ∈ order, x ∈ neededList) :
    (∀ col, (preFilterTable parse order input).getCol "pickup_hour" = some col →
      col.dtype = .nUInt 8) ∧
    (∀ col, (preFilterTable parse order input).getCol "pickup_dayofweek" = some col →
      col.dtype = .nUInt 8) ∧
    (∀ col, (preFilterTable parse order input).getCol "pickup_month" = some col →
      col.dtype = .nUInt 8) ∧
    (∀ col, (preFilterTable parse order input).getCol "trip_duration_min" = some col →
      col.dtype = .float 32) ∧
    (∀ v ∈ (pipeline parse order input).colValues "pickup_hour", v ≠ Value.null) ∧
    (∀ v ∈ (pipeline parse order input).colValues "pickup_dayofweek", v ≠ Value.null) ∧
    (∀ v ∈ (pipeline parse order input).colValues "pickup_month", v ≠ Value.null) ∧
    (∀ v ∈ (pipeline parse order input).colValues "trip_duration_min", v ≠ Value.null) := by
  have hstable : ∀ n : String, n ≠ "pickup_datetime" → n ≠ "pickup_datetime" ++ "_epoch" →
      n ≠ "pickup_datetime" ++ "_hour" → n ≠ "pickup_datetime" ++ "_dow" →
      n ≠ "dropoff_datetime" → n ≠ "dropoff_datetime" ++ "_epoch" →
      n ≠ "dropoff_datetime" ++ "_hour" → n ≠ "dropoff_datetime" ++ "_dow" →
      (pipeline parse order input).colValues n =
        maskFilter (buildMask (preFilterTable parse order input))
          ((preFilterTable parse order input).colValues n) :=
    fun n a b c d e f g h => pipeline_colValues_stable parse order input a b c d e f g h
  rcases hpick : (loadedTable parse order input).getCol "tpep_pickup_datetime"
    with _ | c
  · -- no pickup timestamp column: none of the four columns exists
    have ht2 : addPickupFeatures (loadedTable parse order input) =
        loadedTable parse order input := by
      rw [addPickupFeatures, hpick]
    have hnone : ∀ n : String, n ∉ neededList → n ∉ DATETIME_COLS →
        n ≠ "store_and_fwd_flag" → n ≠ "trip_duration_min" →
        (preFilterTable parse order input).getCol n = none := by
      intro n h1 h2 h3 h4
      rw [preFilterTable, encodeFlag_getCol_ne h3, dropRawDatetimes_getCol_ne h2,
        addDuration_getCol_ne h4, ht2]
      exact getCol_eq_none.mpr (not_loaded_of_not_needed parse input horder h1)
    have hdurn : (preFilterTable parse order input).getCol "trip_duration_min" = none := by
      rw [preFilterTable, encodeFlag_getCol_ne (by decide),
        dropRawDatetimes_getCol_ne (by decide)]
      have hp2 : (addPickupFeatures (loadedTable parse order input)).getCol
          "tpep_pickup_datetime" = none := by
        rw [ht2]; exact hpick
      rw [addDuration]
      rcases hd2 : (addPickupFeatures (loadedTable parse order input)).getCol
          "tpep_dropoff_datetime" with _ | cd
      · rw [ht2]
        exact getCol_eq_none.mpr
          (not_loaded_of_not_needed parse input horder (by decide))
      · rw [hp2, ht2]
        exact getCol_eq_none.mpr
          (not_loaded_of_not_needed parse input horder (by decide))
    have hhn := hnone "pickup_hour" (by decide) (by decide) (by decide) (by decide)
    have hdn := hnone "pickup_dayofweek" (by decide) (by decide) (by decide) (by decide)
    have hmn := hnone "pickup_month" (by decide) (by decide) (by decide) (by decide)
    have hcv : ∀ n : String, (preFilterTable parse order input).getCol n = none →
        (preFilterTable parse order input).colValues n = [] := by
      intro n h
      rw [Table.colValues, h]
    refine ⟨fun col h => absurd h (by rw [hhn]; exact Option.noConfusion),
      fun col h => absurd h (by rw [hdn]; exact Option.noConfusion),
      fun col h => absurd h (by rw [hmn]; exact Option.noConfusion),
      fun col h => absurd h (by rw [hdurn]; exact Option.noConfusion), ?_, ?_, ?_, ?_⟩
    · intro v hv
      rw [hstable _ (by decide) (by decide) (by decide) (by decide) (by decide)
        (by decide) (by decide) (by decide), hcv _ hhn, maskFilter_nil] at hv
      simp at hv
    · intro v hv
      rw [hstable _ (by decide) (by decide) (by decide) (by decide) (by decide)
        (by decide) (by decide) (by decide), hcv _ hdn, maskFilter_nil] at hv
      simp at hv
    · intro v hv
      rw [hstable _ (by decide) (by decide) (by decide) (by decide) (by decide)
        (by decide) (by decide) (by decide), hcv _ hmn, maskFilter_nil] at hv
      simp at hv
    · intro v hv
      rw [hstable _ (by decide) (by decide) (by decide) (by decide) (by decide)
        (by decide) (by decide) (by decide), hcv _ hdurn, maskFilter_nil] at hv
      simp at hv
  · -- pickup timestamp present: the three pickup features are derived
    have hh : (preFilterTable parse order input).getCol "pickup_hour" =
        some ⟨"pickup_hour", .nUInt 8, c.values.map tsHour⟩ := by
      rw [preFilterTable, encodeFlag_getCol_ne (by decide),
        dropRawDatetimes_getCol_ne (by decide), addDuration_getCol_ne (by decide),
        addPickupFeatures, hpick,
        setCol_getCol_ne (show ("pickup_hour" : String) ≠ "pickup_month" by decide),
        setCol_getCol_ne (show ("pickup_hour" : String) ≠ "pickup_dayofweek" by decide)]
      exact setCol_getCol_self _ _
    have hd : (preFilterTable parse order input).getCol "pickup_dayofweek" =
        some ⟨"pickup_dayofweek", .nUInt 8, c.values.map tsDow⟩ := by
      rw [preFilterTable, encodeFlag_getCol_ne (by decide),
        dropRawDatetimes_getCol_ne (by decide), addDuration_getCol_ne (by decide),
        addPickupFeatures, hpick,
        setCol_getCol_ne (show ("pickup_dayofweek" : String) ≠ "pickup_month" by decide)]
      exact setCol_getCol_self _ _
    have hm : (preFilterTable parse order input).getCol "pickup_month" =
        some ⟨"pickup_month", .nUInt 8, c.values.map tsMonth⟩ := by
      rw [preFilterTable, encodeFlag_getCol_ne (by decide),
        dropRawDatetimes_getCol_ne (by decide), addDuration_getCol_ne (by decide),
        addPickupFeatures, hpick]
      exact setCol_getCol_self _ _
    refine ⟨fun col h => by rw [hh] at h; exact (Option.some_inj.mp h) ▸ rfl,
      fun col h => by rw [hd] at h; exact (Option.some_inj.mp h) ▸ rfl,
      fun col h => by rw [hm] at h; exact (Option.some_inj.mp h) ▸ rfl,
      ?_, ?_, ?_, ?_, ?_⟩
    · -- trip_duration_min dtype
      intro col h
      rcases hdrop : (loadedTable parse order input).getCol "tpep_dropoff_datetime"
        with _ | cd
      · exfalso
        have : (preFilterTable parse order input).getCol "trip_duration_min" = none := by
          rw [preFilterTable, encodeFlag_getCol_ne (by decide),
            dropRawDatetimes_getCol_ne (by decide), addDuration]
          have h2d : (addPickupFeatures (loadedTable parse order input)).getCol
              "tpep_dropoff_datetime" = none := by
            rw [addPickupFeatures_getCol_ne (by decide) (by decide) (by decide)]
            exact hdrop
          rw [h2d, addPickupFeatures, hpick,
            setCol_getCol_ne (show ("trip_duration_min" : String) ≠ "pickup_month" by decide),
            setCol_getCol_ne (show ("trip_duration_min" : String) ≠ "pickup_dayofweek" by decide),
            setCol_getCol_ne (show ("trip_duration_min" : String) ≠ "pickup_hour" by decide)]
          exact getCol_eq_none.mpr
            (not_loaded_of_not_needed parse input horder (by decide))
        rw [this] at h
        exact Option.noConfusion h
      · have hdur := preFilterTable_getCol_duration parse order input hdrop hpick
        rw [hdur] at h
        exact (Option.some_inj.mp h) ▸ rfl
    · -- pickup_hour non-null in output
      intro v hv
      rw [hstable _ (by decide) (by decide) (by decide) (by decide) (by decide)
        (by decide) (by decide) (by decide)] at hv
      obtain ⟨i, hmi, hvi⟩ := maskFilter_mem hv
      rw [buildMask_eq] at hmi
      have h5 := maskCol_true_mono (maskCol_true_mono (maskCol_true_mono
        (maskCol_true_mono hmi)))
      obtain ⟨v2, hv2, hnn⟩ := maskCol_true_pred hh h5
      rw [show (preFilterTable parse order input).colValues "pickup_hour" =
        c.values.map tsHour by rw [Table.colValues, hh]] at hvi
      have he : v2 = v := by
        rw [hvi] at hv2
        exact (Option.some_inj.mp hv2).symm
      intro hnull
      rw [he, hnull] at hnn
      simp [vNotna] at hnn
    · -- pickup_dayofweek non-null in output
      intro v hv
      rw [hstable _ (by decide) (by decide) (by decide) (by decide) (by decide)
        (by decide) (by decide) (by decide)] at hv
      obtain ⟨i, hmi, hvi⟩ := maskFilter_mem hv
      rw [buildMask_eq] at hmi
      have h4 := maskCol_true_mono (maskCol_true_mono (maskCol_true_mono hmi))
      obtain ⟨v2, hv2, hnn⟩ := maskCol_true_pred hd h4
      rw [show (preFilterTable parse order input).colValues "pickup_dayofweek" =
        c.values.map tsDow by rw [Table.colValues, hd]] at hvi
      have he : v2 = v := by
        rw [hvi] at hv2
        exact (Option.some_inj.mp hv2).symm
      intro hnull
      rw [he, hnull] at hnn
      simp [vNotna] at hnn
    · -- pickup_month non-null in output: correlated with pickup_hour
      intro v hv
      rw [hstable _ (by decide) (by decide) (by decide) (by decide) (by decide)
        (by decide) (by decide) (by decide)] at hv
      obtain ⟨i, hmi, hvi⟩ := maskFilter_mem hv
      rw [buildMask_eq] at hmi
      have h5 := maskCol_true_mono (maskCol_true_mono (maskCol_true_mono
        (maskCol_true_mono hmi)))
      obtain ⟨v2, hv2, hnn⟩ := maskCol_true_pred hh h5
      rw [show (preFilterTable parse order input).colValues "pickup_month" =
        c.values.map tsMonth by rw [Table.colValues, hm]] at hvi
      rw [List.getElem?_map] at hvi hv2
      rcases hw : c.values[i]? with _ | w
      · rw [hw] at hvi; simp at hvi
      · rw [hw] at hvi hv2
        simp only [Option.map_some'] at hvi hv2
        obtain ⟨mn, hmn⟩ := tsHour_notna_ts
          ((Option.some_inj.mp hv2) ▸ hnn)
        intro hnull
        rw [← Option.some_inj.mp hvi, hmn] at hnull
        simp [tsMonth] at hnull
    · -- trip_duration_min non-null in output
      intro v hv
      rw [hstable _ (by decide) (by decide) (by decide) (by decide) (by decide)
        (by decide) (by decide) (by decide)] at hv
      obtain ⟨i, hmi, hvi⟩ := maskFilter_mem hv
      rcases hdcol : (preFilterTable parse order input).getCol "trip_duration_min"
        with _ | cdur
      · rw [Table.colValues, hdcol] at hvi
        simp at hvi
      · rw [buildMask_eq] at hmi
        obtain ⟨v2, hv2, hgt⟩ := maskCol_true_pred hdcol hmi
        rw [Table.colValues, hdcol] at hvi
        have he : v2 = v := by
          rw [hvi] at hv2
          exact (Option.some_inj.mp hv2).symm
        intro hnull
        rw [he, hnull] at hgt
        simp [vGt0] at hgt

/-- **C6 witness** — the amended theorem applied at a concrete input. -/
theorem C6_witness :
    (∀ x ∈ neededList, x ∈ neededList) ∧
    (∀ v ∈ (pipeline (fun _ => none) neededList ⟨[
      ⟨"tpep_pickup_datetime", .datetime, [.ts 0, .null]⟩,
      ⟨"tpep_dropoff_datetime", .datetime, [.ts 60000000000, .ts 60000000000]⟩]⟩).colValues
        "pickup_month", v ≠ Value.null) :=
  ⟨fun _ hx => hx,
   (C6_primary_derived_nonnull (fun _ => none) neededList ⟨[
      ⟨"tpep_pickup_datetime", .datetime, [.ts 0, .null]⟩,
      ⟨"tpep_dropoff_datetime", .datetime, [.ts 60000000000, .ts 60000000000]⟩]⟩
     (fun _ hx => hx)).2.2.2.2.2.2.1⟩

/-! ## Row counts and stability (C7) -/

theorem maskFilter_sublist : ∀ (m : List Bool) (xs : List α),
    List.Sublist (maskFilter m xs) xs := by
  intro m
  induction m with
  | nil => intro xs; exact List.nil_sublist xs
  | cons b bs ih =>
    intro xs
    cases xs with
    | nil =>
      cases b <;> exact List.nil_sublist []
    | cons x xs =>
      cases b with
      | true => exact (ih xs).cons₂ x
      | false => exact (ih xs).cons x

theorem maskFilter_length_eq {m : List Bool} :
    ∀ {xs : List α} {ys : List β}, xs.length = ys.length →
      (maskFilter m xs).length = (maskFilter m ys).length := by
  induction m with
  | nil => intro xs ys h; rfl
  | cons b bs ih =>
    intro xs ys h
    cases xs with
    | nil =>
      cases ys with
      | nil => cases b <;> rfl
      | cons y ys => simp at h
    | cons x xs =>
      cases ys with
      | nil => simp at h
      | cons y ys =>
        simp only [List.length_cons, Nat.succ_inj] at h
        cases b with
        | true =>
          show (maskFilter bs xs).length + 1 = (maskFilter bs ys).length + 1
          rw [ih h]
        | false => exact ih h

theorem map_allLen {t : Table} {n : Nat} (h : AllLen t n) {f : Column → Column}
    (hf : ∀ c, (f c).values.length = c.values.length) :
    AllLen ⟨t.cols.map f⟩ n := by
  intro c hc
  obtain ⟨c0, hc0, rfl⟩ := List.mem_map.mp hc
  rw [hf]
  exact h c0 hc0

theorem load_allLen {columns : List String} {input : Table} {n : Nat}
    (h : AllLen input n) : AllLen (load columns input) n := by
  intro c hc
  obtain ⟨k, _, hgk⟩ := List.mem_filterMap.mp hc
  exact h c (getCol_mem hgk).1

theorem coerceDatetimes_allLen (parse : Value → Option Int) {t : Table} {n : Nat}
    (h : AllLen t n) : AllLen (coerceDatetimes parse t) n :=
  map_allLen h (fun c => by
    split
    · exact List.length_map _ _
    · rfl)

theorem setCol_allLen {t : Table} {n : Nat} (h : AllLen t n) {c : Column}
    (hc : c.values.length = n) : AllLen (t.setCol c) n := by
  intro c1 hc1
  rw [Table.setCol] at hc1
  split at hc1
  · obtain ⟨c0, hc0, rfl⟩ := List.mem_map.mp hc1
    by_cases he : c0.name = c.name
    · rw [if_pos he]; exact hc
    · rw [if_neg he]; exact h c0 hc0
  · rcases List.mem_append.mp hc1 with h1 | h1
    · exact h c1 h1
    · rw [List.mem_singleton.mp h1]; exact hc

theorem addPickupFeatures_allLen {t : Table} {n : Nat} (h : AllLen t n) :
    AllLen (addPickupFeatures t) n := by
  rw [addPickupFeatures]
  rcases hc : t.getCol "tpep_pickup_datetime" with _ | c
  · exact h
  · have hlc : c.values.length = n := h c (getCol_mem hc).1
    exact setCol_allLen (setCol_allLen (setCol_allLen h (by simpa using hlc))
      (by simpa using hlc)) (by simpa using hlc)

theorem addDuration_allLen {t : Table} {n : Nat} (h : AllLen t n) :
    AllLen (addDuration t) n := by
  rw [addDuration]
  rcases hd : t.getCol "tpep_dropoff_datetime" with _ | cd
  · exact h
  · rcases hp : t.getCol "tpep_pickup_datetime" with _ | cp
    · exact h
    · refine setCol_allLen h ?_
      show (List.zipWith durVal cd.values cp.values).length = n
      rw [List.length_zipWith, h cd (getCol_mem hd).1, h cp (getCol_mem hp).1,
        Nat.min_self]

theorem dropRawDatetimes_allLen {t : Table} {n : Nat} (h : AllLen t n) :
    AllLen (dropRawDatetimes t) n := by
  intro c hc
  exact h c (List.mem_of_mem_filter hc)

theorem encodeFlag_allLen {t : Table} {n : Nat} (h : AllLen t n) :
    AllLen (encodeFlag t) n := by
  rw [encodeFlag]
  rcases hc : t.getCol "store_and_fwd_flag" with _ | c
  · exact h
  · exact setCol_allLen h (by simpa using h c (getCol_mem hc).1)

theorem preFilterTable_allLen (parse : Value → Option Int) (order : List String)
    {input : Table} {n : Nat} (h : AllLen input n) :
    AllLen (preFilterTable parse order input) n :=
  encodeFlag_allLen (dropRawDatetimes_allLen (addDuration_allLen
    (addPickupFeatures_allLen (coerceDatetimes_allLen parse (load_allLen h)))))

theorem applyFilter_allLen {t : Table} {n : Nat} (h : AllLen t n) :
    AllLen (applyFilter t)
      ((maskFilter (buildMask t) (List.replicate n (0 : Nat))).length) := by
  intro c hc
  obtain ⟨c0, hc0, rfl⟩ := List.mem_map.mp hc
  show (maskFilter (buildMask t) c0.values).length = _
  exact maskFilter_length_eq (by rw [h c0 hc0, List.length_replicate])

theorem legacyOne_allLen {parse : Value → Option Int} {t : Table} {c : String}
    {n : Nat} (h : AllLen t n) : AllLen (legacyOne parse t c) n := by
  rw [legacyOne]
  rcases hc : t.getCol c with _ | col
  · exact h
  · have hlc : (if col.dtype ≠ DType.datetime then coerceCol parse col else col).values.length = n := by
      split
      · show (coerceCol parse col).values.length = n
        rw [show (coerceCol parse col).values = col.values.map (coerceVal parse) from rfl,
          List.length_map]
        exact h col (getCol_mem hc).1
      · exact h col (getCol_mem hc).1
    refine setCol_allLen (setCol_allLen (setCol_allLen (setCol_allLen h hlc)
      (by simpa using hlc)) (by simpa using hlc)) (by simpa using hlc)

theorem toCategoricals_allLen {t : Table} {n : Nat} (h : AllLen t n) :
    AllLen (toCategoricals t) n :=
  map_allLen h (fun c => by split <;> rfl)

theorem downcast_numeric_allLen {t : Table} {n : Nat} (h : AllLen t n) :
    AllLen (downcast_numeric t) n :=
  map_allLen h (fun c => by rw [downcastCol_values])

/-- Every column of `legacyOne parse t c` (for the two source column
names) is a pointwise map of some column of `t`: the stage adds or
replaces columns row by row and never reorders rows. -/
theorem legacyOne_pointwise (parse : Value → Option Int) (t : Table)
    (c : String) (hcn : c = "pickup_datetime" ∨ c = "dropoff_datetime") :
    ∀ name : String, ∃ (src : String) (f : Value → Value),
      (legacyOne parse t c).colValues name = (t.colValues src).map f := by
  intro name
  rw [legacyOne]
  rcases hc : t.getCol c with _ | col
  · exact ⟨name, id, (List.map_id _).symm⟩
  · have hvals : t.colValues c = col.values := by rw [Table.colValues, hc]
    have hname : (if col.dtype ≠ DType.datetime then coerceCol parse col else col).name = c := by
      split
      · exact (getCol_mem hc).2
      · exact (getCol_mem hc).2
    have hcv : (if col.dtype ≠ DType.datetime then coerceCol parse col else col).values =
        if col.dtype ≠ DType.datetime then col.values.map (coerceVal parse) else col.values := by
      split
      · rfl
      · rfl
    by_cases h1 : name = c ++ "_dow"
    · subst h1
      rw [setCol_colValues_self]
      by_cases hdt : col.dtype ≠ DType.datetime
      · refine ⟨c, fun v => tsDow (coerceVal parse v), ?_⟩
        rw [hvals, hcv, if_pos hdt, List.map_map]
        rfl
      · refine ⟨c, tsDow, ?_⟩
        rw [hvals, hcv, if_neg hdt]
    · rw [setCol_colValues_ne (show name ≠ c ++ "_dow" from h1)]
      by_cases h2 : name = c ++ "_hour"
      · subst h2
        rw [setCol_colValues_self]
        by_cases hdt : col.dtype ≠ DType.datetime
        · refine ⟨c, fun v => tsHour (coerceVal parse v), ?_⟩
          rw [hvals, hcv, if_pos hdt, List.map_map]
          rfl
        · refine ⟨c, tsHour, ?_⟩
          rw [hvals, hcv, if_neg hdt]
      · rw [setCol_colValues_ne (show name ≠ c ++ "_hour" from h2)]
        by_cases h3 : name = c ++ "_epoch"
        · subst h3
          rw [setCol_colValues_self]
          by_cases hdt : col.dtype ≠ DType.datetime
          · refine ⟨c, fun v => .int (Int.fdiv (viewInt64 (coerceVal parse v)) 1000000000), ?_⟩
            rw [hvals, hcv, if_pos hdt, List.map_map]
            rfl
          · refine ⟨c, fun v => .int (Int.fdiv (viewInt64 v) 1000000000), ?_⟩
            rw [hvals, hcv, if_neg hdt]
        · rw [setCol_colValues_ne (show name ≠ c ++ "_epoch" from h3)]
          by_cases h4 : name = c
          · subst h4
            rw [show (t.setCol (if col.dtype ≠ DType.datetime then coerceCol parse col else col)).colValues name =
                (if col.dtype ≠ DType.datetime then coerceCol parse col else col).values from by
              conv in Table.colValues _ name => rw [show name = (if col.dtype ≠ DType.datetime then coerceCol parse col else col).name from hname.symm]
              exact setCol_colValues_self _ _]
            by_cases hdt : col.dtype ≠ DType.datetime
            · refine ⟨name, coerceVal parse, ?_⟩
              rw [hvals, hcv, if_pos hdt]
            · refine ⟨name, id, ?_⟩
              rw [hvals, hcv, if_neg hdt, List.map_id]
          · rw [setCol_colValues_ne (by rw [hname]; exact h4)]
            exact ⟨name, id, (List.map_id _).symm⟩

/-- Every column of the written output is a pointwise map of some column
of the filtered table: nothing after the filter reorders rows. -/
theorem pipeline_pointwise_after_filter (parse : Value → Option Int)
    (order : List String) (input : Table) :
    ∀ name : String, ∃ (src : String) (f : Value → Value),
      (pipeline parse order input).colValues name =
        ((applyFilter (preFilterTable parse order input)).colValues src).map f := by
  intro name
  rw [pipeline, downcast_numeric_colValues, toCategoricals_colValues,
    legacyConversions]
  obtain ⟨s2, f2, h2⟩ := legacyOne_pointwise parse
    (legacyOne parse (applyFilter (preFilterTable parse order input)) "pickup_datetime")
    "dropoff_datetime" (Or.inr rfl) name
  obtain ⟨s1, f1, h1⟩ := legacyOne_pointwise parse
    (applyFilter (preFilterTable parse order input)) "pickup_datetime" (Or.inl rfl) s2
  refine ⟨s1, f2 ∘ f1, ?_⟩
  rw [h2, h1, List.map_map]

/-- **C7** — Every column of the output has the same length `m ≤ n` where
`n` is the input row count; the filter applies one mask to every column
and is stable (`maskFilter` yields a sublist, preserving relative order);
and every post-filter stage only maps columns pointwise, so the surviving
rows appear in the output in their input order. -/
theorem C7_rowcount_order (parse : Value → Option Int) (order : List String)
    (input : Table) (n : Nat) (hlen : AllLen input n) :
    (∃ m ≤ n, AllLen (pipeline parse order input) m) ∧
    (∀ name : String,
      (applyFilter (preFilterTable parse order input)).colValues name =
        maskFilter (buildMask (preFilterTable parse order input))
          ((preFilterTable parse order input).colValues name)) ∧
    (∀ (m : List Bool) (xs : List Value), List.Sublist (maskFilter m xs) xs) ∧
    (∀ name : String, ∃ (src : String) (f : Value → Value),
      (pipeline parse order input).colValues name =
        ((applyFilter (preFilterTable parse order input)).colValues src).map f) := by
  refine ⟨?_, fun name => applyFilter_colValues _ name, maskFilter_sublist,
    pipeline_pointwise_after_filter parse order input⟩
  have hpre := preFilterTable_allLen parse order hlen
  refine ⟨(maskFilter (buildMask (preFilterTable parse order input))
    (List.replicate n (0 : Nat))).length, ?_, ?_⟩
  · calc (maskFilter (buildMask (preFilterTable parse order input))
        (List.replicate n (0 : Nat))).length
        ≤ (List.replicate n (0 : Nat)).length :=
          (maskFilter_sublist _ _).length_le
      _ = n := List.length_replicate n 0
  · rw [pipeline]
    exact downcast_numeric_allLen (toCategoricals_allLen (legacyOne_allLen
      (legacyOne_allLen (applyFilter_allLen hpre))))

/-- **C7 witness** — the theorem applied at a concrete input. -/
theorem C7_witness :
    (AllLen ⟨[⟨"total_amount", .float 64, [.float 5, .null, .float 2]⟩,
      ⟨"trip_distance", .float 64, [.float 1, .float 1, .float (-3)]⟩]⟩ 3) ∧
    (∃ m ≤ 3, AllLen (pipeline (fun _ => none) neededList
      ⟨[⟨"total_amount", .float 64, [.float 5, .null, .float 2]⟩,
        ⟨"trip_distance", .float 64, [.float 1, .float 1, .float (-3)]⟩]⟩) m) :=
  ⟨by decide,
   (C7_rowcount_order (fun _ => none) neededList
     ⟨[⟨"total_amount", .float 64, [.float 5, .null, .float 2]⟩,
       ⟨"trip_distance", .float 64, [.float 1, .float 1, .float (-3)]⟩]⟩ 3
     (by decide)).1⟩

/-! ## Determinism up to column order (C10)

The Python set `needed` iterates in a hash-seed-dependent order, so two
runs on the same input can request the columns in different orders.  The
lemmas below show the resulting tables are column-permutations of each
other: same columns (name, dtype, values), possibly in different order. -/

theorem names_perm {t1 t2 : Table} (hp : List.Perm t1.cols t2.cols) :
    List.Perm t1.names t2.names := hp.map Column.name

theorem nodup_unique_name {t : Table} (hnd : t.names.Nodup) {c c2 : Column}
    (hc : c ∈ t.cols) (hc2 : c2 ∈ t.cols) (he : c.name = c2.name) : c = c2 :=
  List.inj_on_of_nodup_map hnd hc hc2 he

theorem getCol_eq_of_perm {t1 t2 : Table} (hp : List.Perm t1.cols t2.cols)
    (hnd : t1.names.Nodup) (n : String) : t1.getCol n = t2.getCol n := by
  rcases h1 : t1.getCol n with _ | c
  · rcases h2 : t2.getCol n with _ | c2
    · rfl
    · exfalso
      have hm1 : c2 ∈ t1.cols := hp.mem_iff.mpr (getCol_mem h2).1
      exact (getCol_eq_none.mp h1)
        ((getCol_mem h2).2 ▸ List.mem_map.mpr ⟨c2, hm1, rfl⟩)
  · have hm1 : c ∈ t1.cols := (getCol_mem h1).1
    have hn1 : c.name = n := (getCol_mem h1).2
    rcases h2 : t2.getCol n with _ | c2
    · exfalso
      have hm2 : c ∈ t2.cols := hp.mem_iff.mp hm1
      exact (getCol_eq_none.mp h2) (hn1 ▸ List.mem_map.mpr ⟨c, hm2, rfl⟩)
    · have hm2 : c2 ∈ t1.cols := hp.mem_iff.mpr (getCol_mem h2).1
      rw [nodup_unique_name hnd hm1 hm2 (by rw [hn1, (getCol_mem h2).2])]

theorem setCol_perm {t1 t2 : Table} (hp : List.Perm t1.cols t2.cols)
    (c : Column) : List.Perm (t1.setCol c).cols (t2.setCol c).cols := by
  rw [Table.setCol, Table.setCol]
  have hmem : c.name ∈ t1.names ↔ c.name ∈ t2.names := (names_perm hp).mem_iff
  by_cases h : c.name ∈ t1.names
  · rw [if_pos h, if_pos (hmem.mp h)]
    exact hp.map _
  · rw [if_neg h, if_neg (fun h2 => h (hmem.mpr h2))]
    exact List.Perm.append_right [c] hp

theorem setCol_names_nodup {t : Table} (hnd : t.names.Nodup) (c : Column) :
    (t.setCol c).names.Nodup := by
  rw [Table.setCol]
  split
  case isTrue h =>
    rwa [names_map (fun c0 => by split <;> simp_all)]
  case isFalse h =>
    show (List.map Column.name (t.cols ++ [c])).Nodup
    rw [List.map_append]
    refine List.Nodup.append hnd (List.nodup_singleton _) ?_
    intro a ha hb
    rw [show (List.map Column.name [c]) = [c.name] from rfl,
      List.mem_singleton] at hb
    exact h (hb ▸ ha)

theorem allLen_of_perm {t1 t2 : Table} {n : Nat}
    (hp : List.Perm t1.cols t2.cols) (h : AllLen t1 n) : AllLen t2 n :=
  fun c hc => h c (hp.mem_iff.mpr hc)

theorem nrows_eq_of_perm_allLen {t1 t2 : Table} {n : Nat}
    (hp : List.Perm t1.cols t2.cols) (h1 : AllLen t1 n) :
    t1.nrows = t2.nrows := by
  rcases e1 : t1.cols with _ | ⟨c1, cs1⟩
  · have e2 : t2.cols = [] := ((e1 ▸ hp).symm).eq_nil
    unfold Table.nrows
    rw [e1, e2]
  · rcases e2 : t2.cols with _ | ⟨c2, cs2⟩
    · exfalso
      have : t1.cols = [] := (e2 ▸ hp).eq_nil
      rw [e1] at this
      exact List.noConfusion this
    · have l1 : c1.values.length = n := h1 c1 (by rw [e1]; exact List.mem_cons_self _ _)
      have l2 : c2.values.length = n := (allLen_of_perm hp h1) c2
        (by rw [e2]; exact List.mem_cons_self _ _)
      unfold Table.nrows
      rw [e1, e2]
      show c1.values.length = c2.values.length
      rw [l1, l2]

theorem load_names (input : Table) : ∀ cols : List String,
    (load cols input).names = cols.filter (fun n => decide (n ∈ input.names)) := by
  intro cols
  induction cols with
  | nil => rfl
  | cons m ms ih =>
    show (List.filterMap (fun k => input.getCol k) (m :: ms)).map Column.name = _
    rw [List.filterMap_cons]
    rcases hm : input.getCol m with _ | cm
    · have hno : m ∉ input.names := getCol_eq_none.mp hm
      rw [List.filter_cons_of_neg (by simpa using hno)]
      exact ih
    · have hyes : m ∈ input.names := mem_names_of_getCol hm
      rw [List.filter_cons_of_pos (by simpa using hyes)]
      show cm.name :: (List.filterMap (fun k => input.getCol k) ms).map Column.name =
        m :: ms.filter (fun n => decide (n ∈ input.names))
      rw [show cm.name = m from (getCol_mem hm).2,
        show List.map Column.name (List.filterMap (fun k => input.getCol k) ms) =
          (load ms input).names from rfl, ih]

theorem coerceDatetimes_perm (parse : Value → Option Int) {t1 t2 : Table}
    (hp : List.Perm t1.cols t2.cols) :
    List.Perm (coerceDatetimes parse t1).cols (coerceDatetimes parse t2).cols :=
  hp.map _

theorem addPickupFeatures_perm {t1 t2 : Table}
    (hp : List.Perm t1.cols t2.cols) (hnd : t1.names.Nodup) :
    List.Perm (addPickupFeatures t1).cols (addPickupFeatures t2).cols := by
  have hg := getCol_eq_of_perm hp hnd "tpep_pickup_datetime"
  rw [addPickupFeatures, addPickupFeatures, ← hg]
  rcases hc : t1.getCol "tpep_pickup_datetime" with _ | c
  · exact hp
  · exact setCol_perm (setCol_perm (setCol_perm hp _) _) _

theorem addDuration_perm {t1 t2 : Table}
    (hp : List.Perm t1.cols t2.cols) (hnd : t1.names.Nodup) :
    List.Perm (addDuration t1).cols (addDuration t2).cols := by
  have hgd := getCol_eq_of_perm hp hnd "tpep_dropoff_datetime"
  have hgp := getCol_eq_of_perm hp hnd "tpep_pickup_datetime"
  rw [addDuration, addDuration, ← hgd, ← hgp]
  rcases hd : t1.getCol "tpep_dropoff_datetime" with _ | cd
  · exact hp
  · rcases hp2 : t1.getCol "tpep_pickup_datetime" with _ | cp
    · exact hp
    · exact setCol_perm hp _

theorem dropRawDatetimes_perm {t1 t2 : Table}
    (hp : List.Perm t1.cols t2.cols) :
    List.Perm (dropRawDatetimes t1).cols (dropRawDatetimes t2).cols :=
  hp.filter _

theorem encodeFlag_perm {t1 t2 : Table}
    (hp : List.Perm t1.cols t2.cols) (hnd : t1.names.Nodup) :
    List.Perm (encodeFlag t1).cols (encodeFlag t2).cols := by
  have hg := getCol_eq_of_perm hp hnd "store_and_fwd_flag"
  rw [encodeFlag, encodeFlag, ← hg]
  rcases hc : t1.getCol "store_and_fwd_flag" with _ | c
  · exact hp
  · exact setCol_perm hp _

theorem legacyOne_perm {t1 t2 : Table} (parse : Value → Option Int)
    (hp : List.Perm t1.cols t2.cols) (hnd : t1.names.Nodup) (c : String) :
    List.Perm (legacyOne parse t1 c).cols (legacyOne parse t2 c).cols := by
  have hg := getCol_eq_of_perm hp hnd c
  rw [legacyOne, legacyOne, ← hg]
  rcases hc : t1.getCol c with _ | col
  · exact hp
  · exact setCol_perm (setCol_perm (setCol_perm (setCol_perm hp _) _) _) _

theorem toCategoricals_perm {t1 t2 : Table}
    (hp : List.Perm t1.cols t2.cols) :
    List.Perm (toCategoricals t1).cols (toCategoricals t2).cols :=
  hp.map _

theorem downcast_numeric_perm {t1 t2 : Table}
    (hp : List.Perm t1.cols t2.cols) :
    List.Perm (downcast_numeric t1).cols (downcast_numeric t2).cols :=
  hp.map _

theorem buildMask_eq_of_perm {t1 t2 : Table}
    (hp : List.Perm t1.cols t2.cols) (hnd : t1.names.Nodup)
    (hrows : t1.nrows = t2.nrows) : buildMask t1 = buildMask t2 := by
  have hg : ∀ n, t1.getCol n = t2.getCol n := getCol_eq_of_perm hp hnd
  have hm : ∀ (n : String) (p : Value → Bool) (m : List Bool),
      maskCol t1 n p m = maskCol t2 n p m := by
    intro n p m
    rw [maskCol, maskCol, hg n]
  simp only [buildMask_eq, hrows, hm]

theorem applyFilter_perm {t1 t2 : Table}
    (hp : List.Perm t1.cols t2.cols) (hnd : t1.names.Nodup)
    (hrows : t1.nrows = t2.nrows) :
    List.Perm (applyFilter t1).cols (applyFilter t2).cols := by
  show List.Perm
    (t1.cols.map (fun c => Column.mk c.name c.dtype (maskFilter (buildMask t1) c.values)))
    (t2.cols.map (fun c => Column.mk c.name c.dtype (maskFilter (buildMask t2) c.values)))
  rw [buildMask_eq_of_perm hp hnd hrows]
  exact hp.map _

theorem addPickupFeatures_names_nodup {t : Table} (h : t.names.Nodup) :
    (addPickupFeatures t).names.Nodup := by
  rw [addPickupFeatures]
  rcases hc : t.getCol "tpep_pickup_datetime" with _ | c
  · exact h
  · exact setCol_names_nodup (setCol_names_nodup (setCol_names_nodup h _) _) _

theorem addDuration_names_nodup {t : Table} (h : t.names.Nodup) :
    (addDuration t).names.Nodup := by
  rw [addDuration]
  rcases hd : t.getCol "tpep_dropoff_datetime" with _ | cd
  · exact h
  · rcases hp : t.getCol "tpep_pickup_datetime" with _ | cp
    · exact h
    · exact setCol_names_nodup h _

theorem dropRawDatetimes_names_nodup {t : Table} (h : t.names.Nodup) :
    (dropRawDatetimes t).names.Nodup :=
  List.Nodup.sublist ((List.filter_sublist _).map _) h

theorem encodeFlag_names_nodup {t : Table} (h : t.names.Nodup) :
    (encodeFlag t).names.Nodup := by
  rw [encodeFlag_names]
  exact h

theorem legacyOne_names_nodup {parse : Value → Option Int} {t : Table}
    {c : String} (h : t.names.Nodup) : (legacyOne parse t c).names.Nodup := by
  rw [legacyOne]
  rcases hc : t.getCol c with _ | col
  · exact h
  · exact setCol_names_nodup (setCol_names_nodup (setCol_names_nodup
      (setCol_names_nodup h _) _) _) _

/-- **C10 counterexample** — The pipeline's output depends on the
iteration order of the Python set `needed`, which varies between runs
(string hash randomization): two valid enumerations of the same needed
set produce different output tables (same columns, different column
order) on a byte-identical input. -/
theorem C10_counterexample :
    List.Perm
      ["trip_distance", "total_amount", "store_and_fwd_flag", "payment_type",
       "vendor_id", "rate_code", "tpep_pickup_datetime", "tpep_dropoff_datetime",
       "pickup_datetime", "dropoff_datetime", "fare_amount", "extra", "mta_tax",
       "tip_amount", "tolls_amount", "improvement_surcharge",
       "congestion_surcharge", "airport_fee"] neededList ∧
    pipeline (fun _ => none) neededList
      ⟨[⟨"total_amount", .float 64, [.float 5]⟩,
        ⟨"trip_distance", .float 64, [.float 2]⟩]⟩ ≠
    pipeline (fun _ => none)
      ["trip_distance", "total_amount", "store_and_fwd_flag", "payment_type",
       "vendor_id", "rate_code", "tpep_pickup_datetime", "tpep_dropoff_datetime",
       "pickup_datetime", "dropoff_datetime", "fare_amount", "extra", "mta_tax",
       "tip_amount", "tolls_amount", "improvement_surcharge",
       "congestion_surcharge", "airport_fee"]
      ⟨[⟨"total_amount", .float 64, [.float 5]⟩,
        ⟨"trip_distance", .float 64, [.float 2]⟩]⟩ := by
  decide

/-- **C10 amended** — For a fixed iteration order of the needed set, the
pipeline is a pure function of the input (the embedding is a function);
across two runs whose set iteration orders are different enumerations of
the needed names, the outputs agree up to column order: the output column
lists are permutations of each other (same name/dtype/values triples). -/
theorem C10_deterministic_up_to_column_order (parse : Value → Option Int)
    {o1 o2 : List String} (hperm : List.Perm o1 o2) (hnd1 : o1.Nodup)
    (input : Table) {n : Nat} (hlen : AllLen input n) :
    List.Perm (pipeline parse o1 input).cols (pipeline parse o2 input).cols := by
  have hsel : List.Perm (selectColumns o1 input.names)
      (selectColumns o2 input.names) := (hperm.filter _).filter _
  have hl : List.Perm (load (selectColumns o1 input.names) input).cols
      (load (selectColumns o2 input.names) input).cols := hsel.filterMap _
  have hlnd : (load (selectColumns o1 input.names) input).names.Nodup := by
    rw [load_names]
    exact ((hnd1.filter _).filter _).filter _
  have h1 : List.Perm (loadedTable parse o1 input).cols
      (loadedTable parse o2 input).cols := hl.map _
  have h1nd : (loadedTable parse o1 input).names.Nodup := by
    rw [loadedTable, coerceDatetimes_names]
    exact hlnd
  have h1len : AllLen (loadedTable parse o1 input) n :=
    coerceDatetimes_allLen parse (load_allLen hlen)
  have h2 := addPickupFeatures_perm h1 h1nd
  have h2nd := addPickupFeatures_names_nodup h1nd
  have h2len := addPickupFeatures_allLen h1len
  have h3 := addDuration_perm h2 h2nd
  have h3nd := addDuration_names_nodup h2nd
  have h3len := addDuration_allLen h2len
  have h4 := dropRawDatetimes_perm h3
  have h4nd := dropRawDatetimes_names_nodup h3nd
  have h4len := dropRawDatetimes_allLen h3len
  have h5 := encodeFlag_perm h4 h4nd
  have h5nd := encodeFlag_names_nodup h4nd
  have h5len := encodeFlag_allLen h4len
  have hrows := nrows_eq_of_perm_allLen h5 h5len
  have h6 := applyFilter_perm h5 h5nd hrows
  have h6nd : (applyFilter (preFilterTable parse o1 input)).names.Nodup := by
    rw [applyFilter_names]
    exact h5nd
  have h7 := legacyOne_perm parse h6 h6nd "pickup_datetime"
  have h7nd : (legacyOne parse (applyFilter (preFilterTable parse o1 input))
      "pickup_datetime").names.Nodup := legacyOne_names_nodup h6nd
  have h8 := legacyOne_perm parse h7 h7nd "dropoff_datetime"
  exact downcast_numeric_perm (toCategoricals_perm h8)

/-- **C10 witness** — the amended theorem applied at a concrete pair of
set enumerations and input. -/
theorem C10_witness :
    (List.Perm neededList
      ["trip_distance", "total_amount", "store_and_fwd_flag", "payment_type",
       "vendor_id", "rate_code", "tpep_pickup_datetime", "tpep_dropoff_datetime",
       "pickup_datetime", "dropoff_datetime", "fare_amount", "extra", "mta_tax",
       "tip_amount", "tolls_amount", "improvement_surcharge",
       "congestion_surcharge", "airport_fee"]) ∧
    List.Nodup neededList ∧
    AllLen ⟨[⟨"total_amount", .float 64, [.float 5]⟩,
      ⟨"trip_distance", .float 64, [.float 2]⟩]⟩ 1 ∧
    List.Perm
      (pipeline (fun _ => none) neededList
        ⟨[⟨"total_amount", .float 64, [.float 5]⟩,
          ⟨"trip_distance", .float 64, [.float 2]⟩]⟩).cols
      (pipeline (fun _ => none)
        ["trip_distance", "total_amount", "store_and_fwd_flag", "payment_type",
         "vendor_id", "rate_code", "tpep_pickup_datetime", "tpep_dropoff_datetime",
         "pickup_datetime", "dropoff_datetime", "fare_amount", "extra", "mta_tax",
         "tip_amount", "tolls_amount", "improvement_surcharge",
         "congestion_surcharge", "airport_fee"]
        ⟨[⟨"total_amount", .float 64, [.float 5]⟩,
          ⟨"trip_distance", .float 64, [.float 2]⟩]⟩).cols :=
  ⟨by decide, by decide, by decide,
   C10_deterministic_up_to_column_order (fun _ => none) (by decide) (by decide)
     ⟨[⟨"total_amount", .float 64, [.float 5]⟩,
       ⟨"trip_distance", .float 64, [.float 2]⟩]⟩ (n := 1) (by decide)⟩

/-- **C5 counterexample** — An unparsable legacy timestamp does *not* make
every derived feature null: the `pickup_datetime_epoch` cell of the output
is the floor-divided `NaT` sentinel `-9223372037` (an int64, non-null),
because line 125 reinterprets the `NaT` bit pattern with `.view("int64")`
before dividing. -/
theorem C5_counterexample :
    (pipeline (fun _ => none) neededList
        ⟨[⟨"pickup_datetime", .obj, [.str "not-a-date"]⟩]⟩).colValues
      ("pickup_datetime" ++ "_epoch") = [.int (-9223372037)] ∧
    (Value.int (-9223372037)) ≠ Value.null := by
  decide

/-- **C5 amended** — Timestamp coercion is total and yields null (never
raises) on every unparsable cell; every *primary-path* feature derived
from a null timestamp (hour, day-of-week, month, duration) is null, and on
the legacy path the derived hour and day-of-week cells of an unparsable
timestamp are null — but the epoch-seconds cell is the non-null int64
sentinel `-9223372037`. -/
theorem C5_unparsable_to_null (parse : Value → Option Int) (t : Table)
    (c : String) (col : Column) (i : Nat) (v : Value)
    (hcn : c = "pickup_datetime" ∨ c = "dropoff_datetime")
    (hc : t.getCol c = some col) (hdt : col.dtype ≠ .datetime)
    (hv : col.values[i]? = some v)
    (hnull : coerceVal parse v = .null) :
    (∀ w, coerceVal parse w = .null ∨ ∃ n, coerceVal parse w = .ts n) ∧
    tsHour .null = .null ∧ tsDow .null = .null ∧ tsMonth .null = .null ∧
    (∀ w, durVal .null w = .null ∧ durVal w .null = .null) ∧
    ((legacyOne parse t c).colValues (c ++ "_hour"))[i]? = some .null ∧
    ((legacyOne parse t c).colValues (c ++ "_dow"))[i]? = some .null ∧
    ((legacyOne parse t c).colValues (c ++ "_epoch"))[i]? =
      some (.int (-9223372037)) := by
  refine ⟨?_, ?_, ?_, ?_, ?_, ?_, ?_, ?_⟩
  case refine_2 => rfl
  case refine_3 => rfl
  case refine_4 => rfl
  · intro w
    cases w with
    | null => exact Or.inl rfl
    | ts n => exact Or.inr ⟨n, rfl⟩
    | int j =>
      rcases hp : parse (.int j) with _ | n
      · exact Or.inl (by simp only [coerceVal, hp])
      · exact Or.inr ⟨n, by simp only [coerceVal, hp]⟩
    | float q =>
      rcases hp : parse (.float q) with _ | n
      · exact Or.inl (by simp only [coerceVal, hp])
      · exact Or.inr ⟨n, by simp only [coerceVal, hp]⟩
    | str s =>
      rcases hp : parse (.str s) with _ | n
      · exact Or.inl (by simp only [coerceVal, hp])
      · exact Or.inr ⟨n, by simp only [coerceVal, hp]⟩
  · intro w
    constructor
    · rcases w with _ | j | q | s | n <;> rfl
    · rcases w with _ | j | q | s | n <;> rfl
  · simp only [legacyOne, hc, if_pos hdt]
    rw [setCol_colValues_ne (show c ++ "_hour" ≠ c ++ "_dow" by
        rcases hcn with h | h <;> subst h <;> decide),
      setCol_colValues_self]
    simp [coerceCol, hv, hnull, tsHour]
  · simp only [legacyOne, hc, if_pos hdt]
    rw [setCol_colValues_self]
    simp [coerceCol, hv, hnull, tsDow]
  · simp only [legacyOne, hc, if_pos hdt]
    rw [setCol_colValues_ne (show c ++ "_epoch" ≠ c ++ "_dow" by
        rcases hcn with h | h <;> subst h <;> decide),
      setCol_colValues_ne (show c ++ "_epoch" ≠ c ++ "_hour" by
        rcases hcn with h | h <;> subst h <;> decide),
      setCol_colValues_self]
    rw [show (coerceCol parse col).values = col.values.map (coerceVal parse) from rfl,
      List.getElem?_map, List.getElem?_map, hv]
    show some (Value.int ((viewInt64 (coerceVal parse v)).fdiv 1000000000)) = _
    rw [hnull]
    decide

/-- **C5 witness** — the amended theorem applied at a concrete table. -/
theorem C5_witness :
    (("pickup_datetime" : String) = "pickup_datetime" ∨
      ("pickup_datetime" : String) = "dropoff_datetime") ∧
    (Table.getCol ⟨[⟨"pickup_datetime", .obj, [.str "bad"]⟩]⟩ "pickup_datetime" =
      some ⟨"pickup_datetime", .obj, [.str "bad"]⟩) ∧
    (Column.dtype ⟨"pickup_datetime", .obj, [.str "bad"]⟩ ≠ .datetime) ∧
    ((Column.values ⟨"pickup_datetime", .obj, [.str "bad"]⟩)[0]? =
      some (.str "bad")) ∧
    (coerceVal (fun _ => none) (.str "bad") = .null) ∧
    ((legacyOne (fun _ => none) ⟨[⟨"pickup_datetime", .obj, [.str "bad"]⟩]⟩
        "pickup_datetime").colValues ("pickup_datetime" ++ "_epoch"))[0]? =
      some (.int (-9223372037)) :=
  ⟨by decide, by decide, by decide, by decide, by decide,
   (C5_unparsable_to_null (fun _ => none)
     ⟨[⟨"pickup_datetime", .obj, [.str "bad"]⟩]⟩ "pickup_datetime"
     ⟨"pickup_datetime", .obj, [.str "bad"]⟩ 0 (.str "bad")
     (Or.inl rfl) (by decide) (by decide) (by decide) (by decide)).2.2.2.2.2.2.2⟩

/-- **C9** — The numeric narrowing step is idempotent: `_downcast_numeric`
applied to a table already narrowed by it returns the identical table (no
column is narrowed further), and the narrowing step never changes any
column's values. -/
theorem C9_downcast_numeric_idempotent (t : Table) :
    downcast_numeric (downcast_numeric t) = downcast_numeric t ∧
    ∀ n, (downcast_numeric t).colValues n = t.colValues n := by
  constructor
  · show Table.mk ((t.cols.map downcastCol).map downcastCol) = Table.mk (t.cols.map downcastCol)
    rw [List.map_map]
    exact congrArg Table.mk (List.map_congr_left fun c _ => by
      simp only [Function.comp_apply, downcastCol_idem])
  · intro n
    exact colValues_map downcastCol_name downcastCol_values t n

end Preproc
